import Mathlib

/-!
Verification of the event/occurrence core of the `todoist_helper` repository
(`tools_for_todoist/models/event.py`) against its natural-language specification.

The Python source is shallowly embedded below.  Conventions:

* Calendar dates are modelled as day numbers (days since 1970-01-01, `Int`);
  timezone-aware instants as absolute seconds since 1970-01-01T00:00:00Z.
* `datetime.date` / naive `datetime` / aware `datetime` values become the
  three constructors of `PyTime`.  Python raises `TypeError` when ordering
  heterogeneous values and `AttributeError` on missing methods; fallible
  operations therefore live in `Except PyErr`.
* Third-party libraries (`dateutil.parser.parse`, `dateutil.rrule`,
  `dateutil.tz.gettz`) are external collaborators and are modelled at their
  documented boundary: `rrulestr(...)` output is passed in as the ordered
  list of generated instants, `gettz` resolves a zone name, and the IANA
  zone database is modelled for the zones exercised by the theorems.
* `tools_for_todoist.utils` (`is_allday`, `ensure_datetime`, `datetime_as`)
  is repository code that is not part of the given sources; those three
  helpers are modelled from the specification and are marked as such.
-/

namespace TodoistHelper

/-! ## Civil-calendar arithmetic (models Python's proleptic-Gregorian `datetime`) -/

/-- Days since 1970-01-01 of the civil date `y-m-d` (floor-division variant of
the standard days-from-civil algorithm, valid for all arguments). -/
def daysFromCivil (y m d : Int) : Int :=
  let a := Int.fdiv (14 - m) 12
  let y2 := y + 4800 - a
  let m2 := m + 12 * a - 3
  d + Int.fdiv (153 * m2 + 2) 5 + 365 * y2 + Int.fdiv y2 4
    - Int.fdiv y2 100 + Int.fdiv y2 400 - 32045 - 2440588

/-- Civil date `(y, m, d)` of a day number (inverse of `daysFromCivil`). -/
def civilFromDays (z : Int) : Int × Int × Int :=
  let z := z + 719468
  let era := Int.fdiv z 146097
  let doe := z - era * 146097
  let yoe := Int.fdiv (doe - Int.fdiv doe 1460 + Int.fdiv doe 36524 - Int.fdiv doe 146096) 365
  let y := yoe + era * 400
  let doy := doe - (365 * yoe + Int.fdiv yoe 4 - Int.fdiv yoe 100)
  let mp := Int.fdiv (5 * doy + 2) 153
  let d := doy - Int.fdiv (153 * mp + 2) 5 + 1
  let m := mp + (if mp < 10 then 3 else -9)
  (if m ≤ 2 then y + 1 else y, m, d)

/-- Day of week of a day number, `0` = Sunday (1970-01-01 was a Thursday). -/
def dayOfWeek (z : Int) : Int := Int.emod (z + 4) 7

/-! ## Timezone model (boundary model of `dateutil.tz.gettz` / the IANA database)

Offsets (seconds east of UTC, as a function of the absolute UTC instant) are
modelled for the zones the theorems evaluate; every other name is modelled
with a fixed zero offset.  The United States rule (2007-) is: DST from the
second Sunday of March 07:00 UTC to the first Sunday of November 06:00 UTC.
The United Kingdom rule is: DST from the last Sunday of March 01:00 UTC to
the last Sunday of October 01:00 UTC. -/

/-- First Sunday of month `m` in year `y`, as a day number. -/
def firstSundayOf (y m : Int) : Int :=
  let z := daysFromCivil y m 1
  z + Int.emod (-(z + 4)) 7

/-- Last Sunday of the month whose last day is `y-m-lastDay`, as a day number. -/
def lastSundayOf (y m lastDay : Int) : Int :=
  let z := daysFromCivil y m lastDay
  z - dayOfWeek z

/-- Year of the civil date of an absolute UTC instant. -/
def yearOfInstant (t : Int) : Int := (civilFromDays (Int.fdiv t 86400)).1

/-- Whether United States daylight-saving time is in force at UTC instant `t`. -/
def inUsDst (t : Int) : Bool :=
  let y := yearOfInstant t
  let dstStart := (firstSundayOf y 3 + 7) * 86400 + 7 * 3600
  let dstEnd := firstSundayOf y 11 * 86400 + 6 * 3600
  decide (dstStart ≤ t) && decide (t < dstEnd)

/-- Whether United Kingdom daylight-saving time is in force at UTC instant `t`. -/
def inUkDst (t : Int) : Bool :=
  let y := yearOfInstant t
  let dstStart := lastSundayOf y 3 31 * 86400 + 3600
  let dstEnd := lastSundayOf y 10 31 * 86400 + 3600
  decide (dstStart ≤ t) && decide (t < dstEnd)

/-- A resolved timezone is identified by its IANA name (a `dateutil` `tzfile`
object is determined by the name it was resolved from). -/
abbrev Tz := String

/-- Boundary model of `dateutil.tz.gettz`: resolves a zone name. -/
def gettz (name : String) : Tz := name

/-- Offset (seconds east of UTC) of zone `tz` at absolute UTC instant `t`. -/
def tzOffsetSecs (tz : Tz) (t : Int) : Int :=
  if tz = "America/New_York" then (if inUsDst t then -14400 else -18000)
  else if tz = "Europe/London" then (if inUkDst t then 3600 else 0)
  else 0

/-! ## Python time values

`PyTime` embeds the three shapes of time value the source manipulates:
`datetime.date` (a day number), naive `datetime` (wall day and second of
day), and timezone-aware `datetime` (absolute UTC seconds plus attached
zone).  Python's comparison operators raise `TypeError` between a `date` and
a `datetime` and between naive and aware `datetime`s, so the order
relations return `Option Bool` (`none` = `TypeError`); equality is total
and is `False` across shapes.  Aware `datetime`s compare and equate by
their absolute instant regardless of the attached zone. -/

/-- Python exceptions that the embedded code can raise. -/
inductive PyErr where
  | typeError
  | attributeError
  | assertionError
  | nonModelled
deriving DecidableEq, Repr

/-- A Python time value: `datetime.date`, naive `datetime`, or aware `datetime`. -/
inductive PyTime where
  | date (day : Int)
  | naive (day : Int) (sec : Int)
  | aware (abs : Int) (tz : Tz)
deriving DecidableEq, Repr

namespace PyTime

/-- Python `a < b`; `none` models the `TypeError` raised on mixed shapes. -/
def lt? : PyTime → PyTime → Option Bool
  | .date a, .date b => some (decide (a < b))
  | .naive d s, .naive d' s' => some (decide (d < d') || (decide (d = d') && decide (s < s')))
  | .aware a _, .aware b _ => some (decide (a < b))
  | _, _ => none

/-- Python `a <= b`; `none` models the `TypeError` raised on mixed shapes. -/
def le? : PyTime → PyTime → Option Bool
  | .date a, .date b => some (decide (a ≤ b))
  | .naive d s, .naive d' s' => some (decide (d < d') || (decide (d = d') && decide (s ≤ s')))
  | .aware a _, .aware b _ => some (decide (a ≤ b))
  | _, _ => none

/-- Total variant of `lt?` (mixed shapes give `false`); used only where the
Python comparison is between homogeneous values produced by one generator. -/
def ltb (a b : PyTime) : Bool := (a.lt? b).getD false

/-- Python `a == b` (total; `False` across shapes; aware values compare by
absolute instant). -/
def pyEq : PyTime → PyTime → Bool
  | .date a, .date b => decide (a = b)
  | .naive d s, .naive d' s' => decide (d = d') && decide (s = s')
  | .aware a _, .aware b _ => decide (a = b)
  | _, _ => false

/-- True for a `datetime.date` value. -/
def isDateVal : PyTime → Bool
  | .date _ => true
  | _ => false

/-- True for an aware `datetime` value. -/
def isAware : PyTime → Bool
  | .aware _ _ => true
  | _ => false

/-- Local calendar day of a time value (for aware values, the wall-clock day
in the attached zone). -/
def wallDay : PyTime → Int
  | .date d => d
  | .naive d _ => d
  | .aware a tz => Int.fdiv (a + tzOffsetSecs tz a) 86400

/-- Python's `.date()` method: `AttributeError` on a `date`, the calendar
day of a `datetime` (the wall-clock day in the attached zone if aware). -/
def pydate? : PyTime → Except PyErr Int
  | .date _ => .error .attributeError
  | .naive d _ => .ok d
  | .aware a tz => .ok (Int.fdiv (a + tzOffsetSecs tz a) 86400)

/-- Python's `.astimezone(tz)` method: `AttributeError` on a `date`; on a
naive `datetime` the result depends on the system timezone, which a shallow
embedding cannot model (the theorems never reach this case); on an aware
`datetime` the absolute instant is kept and the zone is replaced. -/
def astimezone? : PyTime → Tz → Except PyErr PyTime
  | .date _, _ => .error .attributeError
  | .naive _ _, _ => .error .nonModelled
  | .aware a _, tz => .ok (.aware a tz)

end PyTime

/-- Lifts a Python comparison result into the error monad
(`none` becomes the raised `TypeError`). -/
def cmpOrErr (o : Option Bool) : Except PyErr Bool :=
  match o with
  | some b => .ok b
  | none => .error .typeError

/-! ## Helpers from `tools_for_todoist.utils` (modelled from the spec)

The module `tools_for_todoist/utils.py` is repository code that is not part
of the given sources; only its call sites are.  The three helpers below are
therefore modelled from the specification's words. -/

/-- Modelled from the spec: `is_allday` from `tools_for_todoist.utils` (not
in the sources).  "All-day events carry calendar-date values with no
time-of-day or timezone component", so a value is all-day iff it is a
calendar date rather than a datetime. -/
def is_allday (t : PyTime) : Bool := t.isDateVal

/-- Modelled from the spec: `ensure_datetime` from `tools_for_todoist.utils`
(not in the sources).  Promotes a calendar date to the naive datetime at its
midnight and leaves datetimes unchanged (used to obtain a `dtstart` and an
`xafter` argument acceptable to the recurrence-rule library). -/
def ensure_datetime : PyTime → PyTime
  | .date d => .naive d 0
  | t => t

/-- Wall-clock day and second of day of a time value (aware values read in
their attached zone). -/
def wallPair : PyTime → Int × Int
  | .date d => (d, 0)
  | .naive d s => (d, s)
  | .aware a tz =>
    let l := a + tzOffsetSecs tz a
    (Int.fdiv l 86400, Int.emod l 86400)

/-- Modelled from the spec: `datetime_as` from `tools_for_todoist.utils`
(not in the sources).  "`after` is normalized to the same shape (date vs.
instant) as the series' start before comparison": the first argument is
converted to the shape of the second (dates convert to datetimes at their
midnight; a wall time is interpreted in the target's zone when an aware
value must be produced). -/
def datetime_as (value target : PyTime) : PyTime :=
  match target with
  | .date _ => .date value.wallDay
  | .naive _ _ =>
    let p := wallPair value
    .naive p.1 p.2
  | .aware _ tz =>
    match value with
    | .aware a _ => .aware a tz
    | .date d => .aware (d * 86400 - tzOffsetSecs tz (d * 86400)) tz
    | .naive d s => .aware (d * 86400 + s - tzOffsetSecs tz (d * 86400 + s)) tz

/-! ## Raw calendar records

Shapes of the raw event records handed in by the calendar source (§6 of the
spec).  Optional fields are `Option`; a raw `start`/`end`/`originalStartTime`
object carries either a bare date or a zoned timestamp.  The `dateTime`
field holds the absolute instant obtained from `dateutil.parser.parse` of
the RFC-3339 string (the parse itself is a library boundary); `date` holds
the parsed day number. -/

/-- One entry of the raw `attendees` list.  The source reads the `self` and
`resource` flags with `.get(..., False)` (so they are optional) and indexes
`responseStatus` directly. -/
structure Attendee where
  selfFlag : Option Bool
  resourceFlag : Option Bool
  responseStatus : String
deriving DecidableEq, Repr

/-- A raw `start` / `end` / `originalStartTime` object. -/
structure RawTime where
  dateField : Option Int
  dateTimeField : Option Int
  timeZoneField : Option String
deriving DecidableEq, Repr

/-- The `extendedProperties` object; the source only ever reads and writes
its `private` sub-mapping, modelled as an insertion-ordered association
list (Python `dict` semantics). -/
structure ExtProps where
  privateMap : Option (List (String × String))
deriving DecidableEq, Repr

/-- A raw event record (the fields the embedded methods read). -/
structure Raw where
  id : String
  status : String
  summary : Option String
  start : RawTime
  recurrence : Option (List String)
  originalStartTime : Option RawTime
  attendees : Option (List Attendee)
  extendedProperties : Option ExtProps
deriving DecidableEq, Repr

/-- A raw `start` object is well-formed when it carries a `date` or a
`dateTime` (Python raises `KeyError` otherwise). -/
def WFRawTime (rt : RawTime) : Prop :=
  rt.dateField.isSome ∨ rt.dateTimeField.isSome

instance (rt : RawTime) : Decidable (WFRawTime rt) := by
  unfold WFRawTime; infer_instance

/-! ## Python `dict` operations (insertion-ordered association lists) -/

/-- Python `m[k] = v`: replaces in place if the key is present, else appends. -/
def dictSet (m : List (String × String)) (k v : String) : List (String × String) :=
  if m.any (fun p => p.1 = k) then
    m.map (fun p => if p.1 = k then (k, v) else p)
  else m ++ [(k, v)]

/-- Python `m.get(k)`. -/
def dictGet (m : List (String × String)) (k : String) : Option String :=
  (m.find? (fun p => p.1 = k)).map (fun p => p.2)

/-! ## The heap of `extendedProperties` objects

Python's `_extended_properties` attribute is a reference to a mutable
mapping; `deep_copy` and the copy-on-write in `save_private_info` must not
alias it between events.  The embedding makes the aliasing explicit: a
store of `ExtProps` values addressed by allocation order, with events
holding addresses.  Cells are only ever allocated (Python rebinding of
`self._extended_properties` to a fresh deep copy), never mutated in place
from the store's point of view, because every in-place mutation in the
source happens on a mapping that was freshly created in the same call. -/

abbrev Addr := Nat

/-- The store of allocated `extendedProperties` mappings. -/
structure Store where
  cells : List ExtProps
deriving DecidableEq, Repr

/-- Read the mapping at an address. -/
def Store.read (s : Store) (a : Addr) : ExtProps :=
  s.cells.getD a ⟨none⟩

/-- Allocate a fresh cell holding `v`; returns its address. -/
def Store.alloc (s : Store) (v : ExtProps) : Addr × Store :=
  (s.cells.length, ⟨s.cells ++ [v]⟩)

/-- Store `s'` extends store `s`: cells are only ever appended. -/
def Store.Extends (s s' : Store) : Prop :=
  ∃ tail, s'.cells = s.cells ++ tail

/-! ## Events

`CalendarEvent` instances.  An exception instance is itself a
`CalendarEvent` in the source; since no code path reads an exception's own
`exceptions` mapping (nor, for these claims, its `recurring_event`
back-reference), exception instances are embedded as the flat `ExcEvent`.
The `google_calendar` collaborator is reduced to its only field the source
reads, `default_timezone`, passed as the `dtz` argument. -/

/-- An exception instance of a recurring series. -/
structure ExcEvent where
  id : String
  raw : Raw
  summary : Option String
  extProps : Option Addr
deriving DecidableEq, Repr

/-- A calendar event (master or singleton). -/
structure Event where
  id : String
  raw : Raw
  summary : Option String
  extProps : Option Addr
  exceptions : List ExcEvent
deriving DecidableEq, Repr

/-- `update_from_raw`: `self._raw = copy.deepcopy(raw)` (a pure value here);
`self._extended_properties = self._raw.get('extendedProperties')` becomes a
fresh cell holding the deep-copied mapping (observationally equivalent to
the alias into the fresh deep copy, since the source never mutates a
mapping another event can reach); `self.summary = self._raw.get('summary')`. -/
def update_from_raw (e : Event) (raw : Raw) (s : Store) : Event × Store :=
  match raw.extendedProperties with
  | none => ({ e with raw := raw, extProps := none, summary := raw.summary }, s)
  | some ep =>
    let p := s.alloc ep
    ({ e with raw := raw, extProps := some p.1, summary := raw.summary }, p.2)

/-- `CalendarEvent.from_raw`: a fresh event with `_id = raw['id']`, then
`update_from_raw(raw)`. -/
def from_raw (raw : Raw) (s : Store) : Event × Store :=
  update_from_raw { id := raw.id, raw := raw, summary := none, extProps := none, exceptions := [] } raw s

/-- `update_from_raw` on an exception instance. -/
def excUpdateFromRaw (x : ExcEvent) (raw : Raw) (s : Store) : ExcEvent × Store :=
  match raw.extendedProperties with
  | none => ({ x with raw := raw, extProps := none, summary := raw.summary }, s)
  | some ep =>
    let p := s.alloc ep
    ({ x with raw := raw, extProps := some p.1, summary := raw.summary }, p.2)

/-- `CalendarEvent.from_raw` for an exception instance (the
`recurring_event` back-reference is a non-owning link no embedded code path
reads, so it is not carried). -/
def excFromRaw (raw : Raw) (s : Store) : ExcEvent × Store :=
  excUpdateFromRaw { id := raw.id, raw := raw, summary := none, extProps := none } raw s

/-- Refresh the first exception whose id matches (ids are unique keys of the
Python `dict`). -/
def updExcList : List ExcEvent → Raw → Store → List ExcEvent × Store
  | [], _, s => ([], s)
  | x :: xs, raw, s =>
    if x.id = raw.id then
      let p := excUpdateFromRaw x raw s
      (p.1 :: xs, p.2)
    else
      let p := updExcList xs raw s
      (x :: p.1, p.2)

/-- `update_exception`: insert-or-refresh of one override instance, keyed by
the exception record's id; insertion appends (Python `dict` order). -/
def update_exception (e : Event) (exRaw : Raw) (s : Store) : Event × Store :=
  if e.exceptions.any (fun x => x.id = exRaw.id) then
    let p := updExcList e.exceptions exRaw s
    ({ e with exceptions := p.1 }, p.2)
  else
    let p := excFromRaw exRaw s
    ({ e with exceptions := e.exceptions ++ [p.1] }, p.2)

/-- `deep_copy`: rebuild from the baseline raw, then re-insert every
exception instance from its raw record. -/
def deep_copy (e : Event) (s : Store) : Event × Store :=
  let p := from_raw e.raw s
  e.exceptions.foldl (fun q x => update_exception q.1 x.raw q.2) p

/-- A Python value passed to `save_private_info` (the source stores
`str(value)`; the claims exercise strings and integers). -/
inductive PyVal where
  | str (s : String)
  | int (n : Int)
deriving DecidableEq, Repr

/-- Python `str` on a `PyVal`. -/
def pyStr : PyVal → String
  | .str s => s
  | .int n => toString n

/-- `save_private_info`: `assert value is not None` (an `AssertionError`
models the fail-fast path); then `value = str(value)`; the mapping is
copy-on-write — a fresh cell is allocated holding either `{}` or a deep
copy of the current mapping, the `private` sub-mapping is created if
missing, and the key is written into the fresh copy. -/
def save_private_info (e : Event) (key : String) (value : Option PyVal) (s : Store) :
    Except PyErr (Event × Store) :=
  match value with
  | none => .error .assertionError
  | some v =>
    let valueStr := pyStr v
    let base : ExtProps :=
      match e.extProps with
      | none => ⟨none⟩
      | some a => s.read a
    let privMap := base.privateMap.getD []
    let p := s.alloc ⟨some (dictSet privMap key valueStr)⟩
    .ok ({ e with extProps := some p.1 }, p.2)

/-- `get_private_info`: `None` when there are no extended properties, else
`self._extended_properties.get('private', {}).get(key)`. -/
def get_private_info (e : Event) (s : Store) (key : String) : Option String :=
  match e.extProps with
  | none => none
  | some a => dictGet ((s.read a).privateMap.getD []) key

/-- An event's extended-properties reference is a valid address of the store. -/
def WFEvent (e : Event) (s : Store) : Prop :=
  ∀ a, e.extProps = some a → a < s.cells.length

/-! ## Derived accessors and predicates (`CalendarEvent` methods on `raw`)

These methods only read `self._raw` (and the calendar's
`default_timezone`), so they are functions of the raw record and the
default zone name `dtz`. -/

/-- `_get_timezone`: `raw_start.get('timeZone', default_timezone)`, with a
reported name of exactly `UTC` remapped to `Europe/London`, resolved by
`gettz`. -/
def _get_timezone (dtz : String) (rt : RawTime) : Tz :=
  let rawTimezone := rt.timeZoneField.getD dtz
  let rawTimezone := if rawTimezone = "UTC" then "Europe/London" else rawTimezone
  gettz rawTimezone

/-- `_parse_start`: a bare date parses to a `date`; otherwise the zoned
timestamp is parsed and converted into the resolved zone (the parse is the
`dateutil` boundary, so `dateTimeField` already holds the absolute instant;
`astimezone` keeps the instant and attaches the resolved zone).  A record
with neither field raises `KeyError` in Python; the theorems restrict to
well-formed records (`WFRawTime`), and the junk value below is never
reached under that hypothesis. -/
def _parse_start (dtz : String) (rt : RawTime) : PyTime :=
  match rt.dateField with
  | some d => .date d
  | none =>
    match rt.dateTimeField with
    | some a => .aware a (_get_timezone dtz rt)
    | none => .date 0

/-- `start()`. -/
def startOf (dtz : String) (raw : Raw) : PyTime :=
  _parse_start dtz raw.start

/-- `_get_original_start()`: parses `originalStartTime`.  Python raises
`KeyError` when the field is absent; §3's invariant guarantees presence for
exception instances and the theorems hypothesize it, so the junk value is
never reached. -/
def _get_original_start (dtz : String) (raw : Raw) : PyTime :=
  match raw.originalStartTime with
  | some rt => _parse_start dtz rt
  | none => .date 0

/-- `_is_cancelled()`: the status field equals `cancelled`. -/
def _is_cancelled (raw : Raw) : Bool :=
  raw.status = "cancelled"

/-- `attendees()`: `raw.get('attendees', [])`. -/
def attendeesOf (raw : Raw) : List Attendee :=
  raw.attendees.getD []

/-- `response_status()`: the `responseStatus` of the first attendee flagged
`self`, or `None`. -/
def response_status (raw : Raw) : Option String :=
  ((attendeesOf raw).find? (fun a => a.selfFlag.getD false)).map (fun a => a.responseStatus)

/-- `is_declined_by_me()`. -/
def is_declined_by_me (raw : Raw) : Bool :=
  response_status raw = some "declined"

/-- `is_declined_by_others()`: all non-self non-resource attendees declined,
and there is at least one such attendee. -/
def is_declined_by_others (raw : Raw) : Bool :=
  let otherAttendees :=
    (attendeesOf raw).filter (fun a => !(a.selfFlag.getD false) && !(a.resourceFlag.getD false))
  let allDeclined := otherAttendees.all (fun a => a.responseStatus = "declined")
  decide (otherAttendees.length > 0) && allDeclined

/-! ## Recurrence normalization (`_get_recurrence` and its `fix_utc`)

The regular expression `UNTIL=(\d{8}T\d{6}Z)` is embedded as a direct
left-to-right scanner; `re.search` yields the first match's captured group,
`re.sub` replaces every non-overlapping match with the (fixed) replacement
string. -/

/-- Whether `p` is a prefix of `l` (character lists). -/
def isPrefixChars : List Char → List Char → Bool
  | [], _ => true
  | _ :: _, [] => false
  | p :: ps, c :: cs => p = c && isPrefixChars ps cs

/-- Python `pat in line` (substring containment). -/
def containsSub : List Char → List Char → Bool
  | [], pat => pat.isEmpty
  | c :: rest, pat => isPrefixChars pat (c :: rest) || containsSub rest pat

/-- Consume exactly `n` decimal digits. -/
def takeDigits : Nat → List Char → Option (List Char × List Char)
  | 0, l => some ([], l)
  | _ + 1, [] => none
  | n + 1, c :: rest =>
    if c.isDigit then (takeDigits n rest).map (fun p => (c :: p.1, p.2)) else none

/-- Consume an exact literal sequence of characters. -/
def expectChars : List Char → List Char → Option (List Char)
  | [], l => some l
  | _ :: _, [] => none
  | p :: ps, c :: cs => if c = p then expectChars ps cs else none

/-- Try to match `UNTIL=(\d{8}T\d{6}Z)` at the head of the list; a match
returns the two digit groups (date digits, time digits) and consumes
exactly 22 characters. -/
def matchUntilAt (l : List Char) : Option (List Char × List Char) :=
  match expectChars "UNTIL=".toList l with
  | none => none
  | some rest =>
    match takeDigits 8 rest with
    | none => none
    | some (d8, rest2) =>
      match expectChars ['T'] rest2 with
      | none => none
      | some rest3 =>
        match takeDigits 6 rest3 with
        | none => none
        | some (d6, rest4) =>
          match expectChars ['Z'] rest4 with
          | none => none
          | some _ => some (d8, d6)

/-- Model of `re.search(r'UNTIL=(\d{8}T\d{6}Z)', line)`: the first match. -/
def searchUntil : List Char → Option (List Char × List Char)
  | [] => none
  | c :: rest =>
    match matchUntilAt (c :: rest) with
    | some cap => some cap
    | none => searchUntil rest

/-- Model of `re.sub(r'UNTIL=(\d{8}T\d{6}Z)', repl, line)`: replaces every
non-overlapping match, left to right, with the fixed string `repl`. -/
def subUntilAll (repl : List Char) : List Char → List Char
  | [] => []
  | c :: rest =>
    match matchUntilAt (c :: rest) with
    | some _ => repl ++ subUntilAll repl (rest.drop 21)
    | none => c :: subUntilAll repl rest
termination_by l => l.length
decreasing_by
  all_goals simp
  omega

/-- Numeric value of a list of decimal digit characters. -/
def digitsToNat (l : List Char) : Nat :=
  l.foldl (fun acc c => acc * 10 + (c.toNat - 48)) 0

/-- Python `f"{n:02}"` for the month and day fields. -/
def pad2 (n : Int) : String :=
  (if n < 10 then "0" else "") ++ toString n

/-- The absolute UTC instant denoted by a captured compact timestamp
`YYYYMMDD` / `HHMMSS` `Z` (the `dateutil.parser.parse` boundary: the
captured group parses to an aware UTC datetime). -/
def compactUtcInstant (d8 d6 : List Char) : Int :=
  let y : Int := digitsToNat (d8.take 4)
  let mo : Int := digitsToNat ((d8.drop 4).take 2)
  let d : Int := digitsToNat (d8.drop 6)
  let h : Int := digitsToNat (d6.take 2)
  let mi : Int := digitsToNat ((d6.drop 2).take 2)
  let sec : Int := digitsToNat (d6.drop 4)
  daysFromCivil y mo d * 86400 + (h * 3600 + mi * 60 + sec)

/-- The civil date of a UTC instant converted into zone `dtz`
(Python `.astimezone(gettz(dtz)).date()`). -/
def localCivilDate (dtz : String) (utc : Int) : Int × Int × Int :=
  civilFromDays (Int.fdiv (utc + tzOffsetSecs (gettz dtz) utc) 86400)

/-- The bare-date text `f"{y}{m:02}{d:02}"` (no time, no zone suffix). -/
def bareDateText (c : Int × Int × Int) : String :=
  toString c.1 ++ pad2 c.2.1 ++ pad2 c.2.2

/-- The replacement text `f"UNTIL={y}{m:02}{d:02}"`: the captured compact
UTC timestamp is parsed, converted into the calendar's default timezone,
and its local calendar date is written back as a bare date. -/
def untilReplacement (dtz : String) (d8 d6 : List Char) : List Char :=
  ("UNTIL=" ++ bareDateText (localCivilDate dtz (compactUtcInstant d8 d6))).toList

/-- The `fix_utc` closure of `_get_recurrence`: lines without both `RRULE`
and `UNTIL` markers are returned unchanged; otherwise the first
`UNTIL=<compact UTC timestamp>` match is parsed, converted into the
calendar's default timezone, and every match of the pattern is rewritten
to the resulting bare local date. -/
def fix_utc (dtz : String) (line : String) : String :=
  if !containsSub line.toList "RRULE".toList || !containsSub line.toList "UNTIL".toList then
    line
  else
    match searchUntil line.toList with
    | none => line
    | some cap => String.mk (subUntilAll (untilReplacement dtz cap.1 cap.2) line.toList)

/-- `_get_recurrence`: `None` without a `recurrence` field; for an all-day
event every rule line goes through `fix_utc`; the lines are joined with
newlines. -/
def _get_recurrence (dtz : String) (raw : Raw) : Option String :=
  match raw.recurrence with
  | none => none
  | some recurrence =>
    let recurrence :=
      if is_allday (startOf dtz raw) then recurrence.map (fix_utc dtz) else recurrence
    some (String.intercalate "\n" recurrence)

/-! ## Next-occurrence search

`next_occurrence(after_dt)` and `_find_next_occurrence`.  The parsed
recurrence rule (`self._get_rrule()`, the `dateutil.rrule` boundary) is
modelled by the ordered list `gen` of all instants the rule generates;
`xafter(d)` yields the generated instants strictly after `d`, in order.
The source returns the event object an occurrence belongs to (the master
`self` or an exception instance); the embedding identifies it by `Source`
(the master, or the position of the exception in the `exceptions` list). -/

/-- Which event a returned occurrence belongs to: the master `self`, or the
overriding exception instance (the source returns the event object; the
embedding identifies it by its value). -/
inductive Source where
  | master
  | exc (x : ExcEvent)
deriving DecidableEq, Repr

/-- The `rrule.xafter` boundary: generated instants strictly after `d`, in
generation order (comparisons inside the generator are homogeneous by
construction, hence the total `ltb`). -/
def xafter (gen : List PyTime) (d : PyTime) : List PyTime :=
  gen.filter (fun t => d.ltb t)

/-- The list comprehension
`[(x.start(), x) for x in exceptions.values() if not (cancelled or declined)]`. -/
def nonCancelledExceptionStarts (dtz : String) (excs : List ExcEvent) : List (PyTime × ExcEvent) :=
  (excs.filter (fun x =>
      !(_is_cancelled x.raw || is_declined_by_me x.raw || is_declined_by_others x.raw))).map
    (fun x => (startOf dtz x.raw, x))

/-- The generator `((start, event) for ... if start > after_dt)`; each
`start > after_dt` comparison can raise `TypeError` on mixed shapes. -/
def filterFuture (after_dt : PyTime) :
    List (PyTime × ExcEvent) → Except PyErr (List (PyTime × ExcEvent))
  | [] => .ok []
  | x :: xs => do
    let b ← cmpOrErr (after_dt.lt? x.1)
    let rest ← filterFuture after_dt xs
    .ok (if b then x :: rest else rest)

/-- Python `min` scan: keeps the current minimum, replacing it only when a
later key is strictly smaller (so the first minimum wins ties). -/
def minFold (cur : PyTime × ExcEvent) :
    List (PyTime × ExcEvent) → Except PyErr (PyTime × ExcEvent)
  | [] => .ok cur
  | y :: ys => do
    let b ← cmpOrErr (y.1.lt? cur.1)
    minFold (if b then y else cur) ys

/-- `min(future_exception_starts, default=(None, None), key=lambda x: x[0])`. -/
def pyMinFst : List (PyTime × ExcEvent) → Except PyErr (Option PyTime × Option Source)
  | [] => .ok (none, none)
  | x :: xs => do
    let m ← minFold x xs
    .ok (some m.1, some (.exc m.2))

/-- The `for next_regular_occurrence in rrule_instances.xafter(...)` loop:
if a first exception start exists at or before the regular instant, return
it; else return the instant when it is not an overridden slot (set
membership is Python `==`, total across shapes); else continue.  When the
stream is exhausted, fall back to the first exception start. -/
def walkRegs (firstExc : Option PyTime × Option Source) (origs : List PyTime) :
    List PyTime → Except PyErr (Option PyTime × Option Source)
  | [] => .ok firstExc
  | t :: ts => do
    let hit ←
      match firstExc.1 with
      | some fs => cmpOrErr (fs.le? t)
      | none => pure false
    if hit then .ok firstExc
    else if origs.any (fun o => o.pyEq t) then walkRegs firstExc origs ts
    else .ok (some t, some .master)

/-- `_find_next_occurrence(rrule_instances, after_dt)`. -/
def _find_next_occurrence (dtz : String) (e : Event) (gen : List PyTime) (after_dt : PyTime) :
    Except PyErr (Option PyTime × Option Source) := do
  let future ← filterFuture after_dt (nonCancelledExceptionStarts dtz e.exceptions)
  let firstExceptionStart ← pyMinFst future
  let exceptionOriginalStarts := e.exceptions.map (fun x => _get_original_start dtz x.raw)
  if is_declined_by_me e.raw || is_declined_by_others e.raw then
    return firstExceptionStart
  else
    walkRegs firstExceptionStart exceptionOriginalStarts (xafter gen (ensure_datetime after_dt))

/-- `next_occurrence(after_dt)`: `after` is normalized to the start's shape;
a non-recurring event qualifies iff not declined and still ahead; for a
recurring event the found instant is converted to a calendar date when the
series is all-day, else into the series' own timezone.  `gen` models the
successfully parsed rule's generated instants (`self._get_rrule()` is
`None` exactly when the raw record has no `recurrence`). -/
def next_occurrence (dtz : String) (e : Event) (gen : List PyTime) (after : PyTime) :
    Except PyErr (Option PyTime × Option Source) := do
  let start := startOf dtz e.raw
  let afterDt := datetime_as after start
  match e.raw.recurrence with
  | none => do
    let isDeclined := is_declined_by_me e.raw || is_declined_by_others e.raw
    let b ← cmpOrErr (afterDt.lt? start)
    .ok (if b && !isDeclined then (some start, some .master) else (none, none))
  | some _ => do
    let p ← _find_next_occurrence dtz e gen afterDt
    match p.1 with
    | none => .ok (none, p.2)
    | some t =>
      if is_allday start then do
        let d ← t.pydate?
        .ok (some (.date d), p.2)
      else
        match start with
        | .aware _ stz => do
          let t2 ← t.astimezone? stz
          .ok (some t2, p.2)
        | _ => .error .nonModelled

/-! ## Claim-side definitions

Formalizations of the specification's vocabulary, written from the claims'
words, to be related to the embedded source functions above. -/

/-- Total variant of `le?` (mixed shapes give `false`); claim-side order. -/
def PyTime.leb (a b : PyTime) : Bool := (a.le? b).getD false

/-- The spec's result normalization: "converted to a calendar date if the
series is all-day, else converted into the series' own timezone" (the
instant is kept, the attached zone becomes the start's). -/
def claimConvert (st t : PyTime) : PyTime :=
  match st, t with
  | .date _, .naive d _ => .date d
  | .aware _ tz, .aware a _ => .aware a tz
  | _, _ => t

/-- A generated instant has the shape the series' start produces through the
rule library: naive datetimes for an all-day series, aware datetimes for a
timed series. -/
def matchesSeriesShape (st t : PyTime) : Bool :=
  match st, t with
  | .date _, .naive _ _ => true
  | .aware _ _, .aware _ _ => true
  | _, _ => false

/-- The claim's "qualifying exception candidate": not cancelled, not
declined by self or by others, own start strictly after the (normalized)
`after`. -/
def qualifiesClaim (dtz : String) (afterDt : PyTime) (x : ExcEvent) : Bool :=
  !_is_cancelled x.raw && !is_declined_by_me x.raw && !is_declined_by_others x.raw &&
    afterDt.ltb (startOf dtz x.raw)

/-- The claim's exception candidate: `none` when no exception qualifies;
otherwise the start (and position) of a qualifying exception whose start is
earliest among all qualifying ones. -/
def IsEarliestQualifying (dtz : String) (afterDt : PyTime) (excs : List ExcEvent) :
    Option (PyTime × ExcEvent) → Prop
  | none => ∀ x ∈ excs, qualifiesClaim dtz afterDt x = false
  | some sx =>
    sx.2 ∈ excs ∧
    qualifiesClaim dtz afterDt sx.2 = true ∧
    sx.1 = startOf dtz sx.2.raw ∧
    ∀ x ∈ excs, qualifiesClaim dtz afterDt x = true →
      sx.1.leb (startOf dtz x.raw) = true

/-- The claim's merge walk over the regular candidates: at each instant,
return the exception candidate if its start is at or before the instant;
otherwise return the instant (with the master) unless it is an overridden
slot; when the stream is exhausted, fall back to the exception candidate. -/
def claimWalk (excCand : Option (PyTime × ExcEvent)) (origs : List PyTime) :
    List PyTime → Option PyTime × Option Source
  | [] =>
    match excCand with
    | some sx => (some sx.1, some (.exc sx.2))
    | none => (none, none)
  | t :: ts =>
    match excCand with
    | some sx =>
      if sx.1.leb t then (some sx.1, some (.exc sx.2))
      else if origs.any (fun o => o.pyEq t) then claimWalk excCand origs ts
      else (some t, some .master)
    | none =>
      if origs.any (fun o => o.pyEq t) then claimWalk excCand origs ts
      else (some t, some .master)

/-- The claim's result for a declined master: the exception candidate alone,
or `(None, None)`. -/
def excCandResult : Option (PyTime × ExcEvent) → Option PyTime × Option Source
  | some sx => (some sx.1, some (.exc sx.2))
  | none => (none, none)

/-- Applies the spec's result normalization to a search result. -/
def retagToSeriesTz (st : PyTime) (r : Option PyTime × Option Source) :
    Option PyTime × Option Source :=
  (r.1.map (claimConvert st), r.2)

/-! ## Concrete sample records (used by witnesses and counterexamples) -/

/-- A raw start holding a bare date. -/
def rawDate (d : Int) : RawTime := ⟨some d, none, none⟩

/-- A raw start holding a zoned timestamp in zone `Europe/Sofia`. -/
def rawStamp (a : Int) : RawTime := ⟨none, some a, some "Europe/Sofia"⟩

/-- A sample raw record builder. -/
def sampleRaw (st : RawTime) (rec : Option (List String)) (ost : Option RawTime)
    (att : Option (List Attendee)) : Raw :=
  { id := "m", status := "confirmed", summary := some "s", start := st, recurrence := rec,
    originalStartTime := ost, attendees := att, extendedProperties := none }

/-- An all-day exception instance: overrides the slot of day 2, rescheduled
to day 3. -/
def excAllday : ExcEvent :=
  { id := "x", raw := sampleRaw (rawDate 3) none (some (rawDate 2)) none,
    summary := some "s", extProps := none }

/-- An all-day daily master (not declined) with the one rescheduled
exception instance. -/
def evAllday : Event :=
  { id := "m", raw := sampleRaw (rawDate 0) (some ["RRULE:FREQ=DAILY"]) none none,
    summary := some "s", extProps := none, exceptions := [excAllday] }

/-- The same all-day master, declined by self. -/
def evAlldayDeclined : Event :=
  { evAllday with
    raw := sampleRaw (rawDate 0) (some ["RRULE:FREQ=DAILY"]) none
      (some [⟨some true, none, "declined"⟩]) }

/-- The instants a daily all-day rule generates (naive midnights). -/
def genAllday : List PyTime := [.naive 1 0, .naive 2 0, .naive 3 0]

/-- A timed exception instance: overrides the slot at `54000 + 2·86400`,
rescheduled to `54000 + 3·86400`. -/
def excTimed : ExcEvent :=
  { id := "x",
    raw := sampleRaw (rawStamp (54000 + 3 * 86400)) none (some (rawStamp (54000 + 2 * 86400))) none,
    summary := some "s", extProps := none }

/-- A timed daily master (not declined) with the rescheduled exception. -/
def evTimed : Event :=
  { id := "m", raw := sampleRaw (rawStamp 54000) (some ["RRULE:FREQ=DAILY"]) none none,
    summary := some "s", extProps := none, exceptions := [excTimed] }

/-- The same timed master, declined by self. -/
def evTimedDeclined : Event :=
  { evTimed with
    raw := sampleRaw (rawStamp 54000) (some ["RRULE:FREQ=DAILY"]) none
      (some [⟨some true, none, "declined"⟩]) }

/-- The instants of the timed daily rule, in the series' zone. -/
def genTimed : List PyTime :=
  [.aware 54000 "Europe/Sofia", .aware (54000 + 86400) "Europe/Sofia",
   .aware (54000 + 2 * 86400) "Europe/Sofia", .aware (54000 + 3 * 86400) "Europe/Sofia",
   .aware (54000 + 4 * 86400) "Europe/Sofia"]

/-- A non-recurring timed event. -/
def evSingle : Event :=
  { id := "m", raw := sampleRaw (rawStamp 54000) none none none,
    summary := some "s", extProps := none, exceptions := [] }

/-- A sample event without extended properties, over the empty store. -/
def evPlain : Event :=
  { id := "m", raw := sampleRaw (rawDate 0) none none none,
    summary := some "s", extProps := none, exceptions := [] }

/-! ## Supporting lemmas -/

lemma dictGet_dictSet (m : List (String × String)) (k v : String) :
    dictGet (dictSet m k v) k = some v := by
  unfold dictSet dictGet
  by_cases h : m.any (fun p => p.1 = k)
  · rw [if_pos h]
    induction m with
    | nil => simp at h
    | cons hd tl ih =>
      by_cases hk : hd.1 = k
      · simp [hk, List.find?]
      · have htl : tl.any (fun p => decide (p.1 = k)) = true := by
          simpa [List.any_cons, hk] using h
        simpa [List.find?, hk] using ih htl
  · rw [if_neg h]
    have hm : m.find? (fun p => decide (p.1 = k)) = none := by
      rw [List.find?_eq_none]
      intro p hp
      simp only [List.any_eq_true, not_exists, not_and] at h
      simpa using h p hp
    rw [List.find?_append, hm]
    simp [List.find?]

lemma extendsRefl (s : Store) : s.Extends s := ⟨[], by simp⟩

lemma extendsTrans {s s' s'' : Store} (h : s.Extends s') (h' : s'.Extends s'') :
    s.Extends s'' := by
  obtain ⟨t1, ht1⟩ := h
  obtain ⟨t2, ht2⟩ := h'
  exact ⟨t1 ++ t2, by rw [ht2, ht1, List.append_assoc]⟩

lemma lengthLeOfExtends {s s' : Store} (h : s.Extends s') :
    s.cells.length ≤ s'.cells.length := by
  obtain ⟨t, ht⟩ := h
  simp [ht]

lemma readOfExtends {s s' : Store} (h : s.Extends s') {a : Addr}
    (ha : a < s.cells.length) : s'.read a = s.read a := by
  obtain ⟨t, ht⟩ := h
  unfold Store.read
  rw [ht, List.getD_eq_getElem?_getD, List.getD_eq_getElem?_getD,
    List.getElem?_append_left ha]

lemma wfOfExtends {e : Event} {s s' : Store} (hwf : WFEvent e s) (h : s.Extends s') :
    WFEvent e s' := by
  intro a ha
  exact Nat.lt_of_lt_of_le (hwf a ha) (lengthLeOfExtends h)

lemma getPrivateInfoOfExtends {e : Event} {s s' : Store} (hwf : WFEvent e s)
    (h : s.Extends s') (k : String) :
    get_private_info e s' k = get_private_info e s k := by
  unfold get_private_info
  cases hep : e.extProps with
  | none => rfl
  | some a =>
    show dictGet ((s'.read a).privateMap.getD []) k
      = dictGet ((s.read a).privateMap.getD []) k
    rw [readOfExtends h (hwf a hep)]

lemma updateFromRawExtends (e : Event) (raw : Raw) (s : Store) :
    s.Extends (update_from_raw e raw s).2 := by
  unfold update_from_raw
  cases raw.extendedProperties with
  | none => exact extendsRefl s
  | some ep => exact ⟨[ep], rfl⟩

lemma fromRawExtends (raw : Raw) (s : Store) : s.Extends (from_raw raw s).2 :=
  updateFromRawExtends _ raw s

lemma excUpdateFromRawExtends (x : ExcEvent) (raw : Raw) (s : Store) :
    s.Extends (excUpdateFromRaw x raw s).2 := by
  unfold excUpdateFromRaw
  cases raw.extendedProperties with
  | none => exact extendsRefl s
  | some ep => exact ⟨[ep], rfl⟩

lemma updExcListExtends (l : List ExcEvent) (raw : Raw) (s : Store) :
    s.Extends (updExcList l raw s).2 := by
  induction l generalizing s with
  | nil => exact extendsRefl s
  | cons x xs ih =>
    unfold updExcList
    by_cases hx : x.id = raw.id
    · simpa [hx] using excUpdateFromRawExtends x raw s
    · simpa [hx] using ih s

lemma updateExceptionExtends (e : Event) (raw : Raw) (s : Store) :
    s.Extends (update_exception e raw s).2 := by
  unfold update_exception
  by_cases hc : e.exceptions.any (fun x => x.id = raw.id)
  · simpa [hc] using updExcListExtends e.exceptions raw s
  · simpa [hc] using excUpdateFromRawExtends _ raw s

lemma updateExceptionKeepsExtProps (e : Event) (raw : Raw) (s : Store) :
    (update_exception e raw s).1.extProps = e.extProps := by
  unfold update_exception
  by_cases hc : e.exceptions.any (fun x => x.id = raw.id) <;> simp [hc]

lemma foldUpdateExceptionExtends (xs : List ExcEvent) (q : Event × Store) :
    q.2.Extends (xs.foldl (fun q x => update_exception q.1 x.raw q.2) q).2 := by
  induction xs generalizing q with
  | nil => exact extendsRefl q.2
  | cons x xs ih =>
    refine extendsTrans (updateExceptionExtends q.1 x.raw q.2) ?_
    exact ih (update_exception q.1 x.raw q.2)

lemma foldUpdateExceptionKeepsExtProps (xs : List ExcEvent) (q : Event × Store) :
    (xs.foldl (fun q x => update_exception q.1 x.raw q.2) q).1.extProps = q.1.extProps := by
  induction xs generalizing q with
  | nil => rfl
  | cons x xs ih =>
    rw [List.foldl_cons, ih]
    exact updateExceptionKeepsExtProps q.1 x.raw q.2

lemma deepCopyExtends (e : Event) (s : Store) : s.Extends (deep_copy e s).2 := by
  unfold deep_copy
  exact extendsTrans (fromRawExtends e.raw s) (foldUpdateExceptionExtends _ _)

lemma fromRawWf (raw : Raw) (s : Store) :
    WFEvent (from_raw raw s).1 (from_raw raw s).2 := by
  unfold from_raw update_from_raw
  cases raw.extendedProperties with
  | none => intro a ha; simp at ha
  | some ep =>
    intro a ha
    simp only [Store.alloc] at ha ⊢
    simp at ha
    simp [ha]

lemma deepCopyWf (e : Event) (s : Store) :
    WFEvent (deep_copy e s).1 (deep_copy e s).2 := by
  unfold deep_copy
  intro a ha
  rw [foldUpdateExceptionKeepsExtProps] at ha
  exact Nat.lt_of_lt_of_le (fromRawWf e.raw s a ha)
    (lengthLeOfExtends (foldUpdateExceptionExtends _ _))

lemma saveOkExtends {e : Event} {key : String} {v : Option PyVal} {s : Store}
    {e2 : Event} {s2 : Store} (h : save_private_info e key v s = .ok (e2, s2)) :
    s.Extends s2 := by
  cases v with
  | none => simp [save_private_info] at h
  | some w =>
    simp only [save_private_info, Store.alloc, Except.ok.injEq, Prod.mk.injEq] at h
    exact ⟨_, congrArg Store.cells h.2.symm⟩

lemma takeDigitsExact (l r : List Char) (hd : ∀ c ∈ l, c.isDigit) :
    takeDigits l.length (l ++ r) = some (l, r) := by
  induction l with
  | nil => rfl
  | cons c cs ih =>
    have hc : c.isDigit = true := hd c (by simp)
    simp only [List.length_cons, List.cons_append, takeDigits, hc, if_true]
    rw [List.append_eq, ih (fun x hx => hd x (by simp [hx]))]
    rfl

lemma matchUntilAtExact (d8 d6 rest : List Char) (h8 : d8.length = 8) (h6 : d6.length = 6)
    (hd8 : ∀ c ∈ d8, c.isDigit) (hd6 : ∀ c ∈ d6, c.isDigit) :
    matchUntilAt ('U' :: 'N' :: 'T' :: 'I' :: 'L' :: '=' :: (d8 ++ 'T' :: (d6 ++ 'Z' :: rest)))
      = some (d8, d6) := by
  have t8 := takeDigitsExact d8 ('T' :: (d6 ++ 'Z' :: rest)) hd8
  rw [h8] at t8
  have t6 := takeDigitsExact d6 ('Z' :: rest) hd6
  rw [h6] at t6
  have he : expectChars "UNTIL=".toList
      ('U' :: 'N' :: 'T' :: 'I' :: 'L' :: '=' :: (d8 ++ 'T' :: (d6 ++ 'Z' :: rest)))
      = some (d8 ++ 'T' :: (d6 ++ 'Z' :: rest)) := rfl
  unfold matchUntilAt
  simp only [he, t8, t6, expectChars, if_pos]

lemma stepSearch {c : Char} {rest : List Char} (h : matchUntilAt (c :: rest) = none) :
    searchUntil (c :: rest) = searchUntil rest := by
  rw [searchUntil, h]

lemma stepSub {repl : List Char} {c : Char} {rest : List Char}
    (h : matchUntilAt (c :: rest) = none) :
    subUntilAll repl (c :: rest) = c :: subUntilAll repl rest := by
  rw [subUntilAll, h]

lemma dropTailMatch (d8 d6 : List Char) (h8 : d8.length = 8) (h6 : d6.length = 6) :
    ('N' :: 'T' :: 'I' :: 'L' :: '=' :: (d8 ++ 'T' :: (d6 ++ ['Z']))).drop 21 = [] := by
  simp only [List.drop_succ_cons]
  rw [List.drop_append_eq_append_drop, List.drop_eq_nil_of_le (by omega), h8]
  simp only [List.nil_append, List.drop_succ_cons]
  rw [List.drop_append_eq_append_drop, List.drop_eq_nil_of_le (by omega), h6]
  rfl

lemma subAtMatch (repl d8 d6 : List Char) (h8 : d8.length = 8) (h6 : d6.length = 6)
    (hd8 : ∀ c ∈ d8, c.isDigit) (hd6 : ∀ c ∈ d6, c.isDigit) :
    subUntilAll repl ('U' :: 'N' :: 'T' :: 'I' :: 'L' :: '=' :: (d8 ++ 'T' :: (d6 ++ ['Z'])))
      = repl := by
  rw [subUntilAll]
  have hm := matchUntilAtExact d8 d6 [] h8 h6 hd8 hd6
  rw [hm, dropTailMatch d8 d6 h8 h6, subUntilAll]
  simp

lemma searchAtMatch (d8 d6 : List Char) (h8 : d8.length = 8) (h6 : d6.length = 6)
    (hd8 : ∀ c ∈ d8, c.isDigit) (hd6 : ∀ c ∈ d6, c.isDigit) :
    searchUntil ('U' :: 'N' :: 'T' :: 'I' :: 'L' :: '=' :: (d8 ++ 'T' :: (d6 ++ ['Z'])))
      = some (d8, d6) := by
  unfold searchUntil
  rw [matchUntilAtExact d8 d6 [] h8 h6 hd8 hd6]

lemma ltOfDatetimeAs (v t : PyTime) :
    (datetime_as v t).lt? t = some ((datetime_as v t).ltb t) := by
  cases t <;> cases v <;> simp [datetime_as, PyTime.lt?, PyTime.ltb]

lemma startOfShape (dtz : String) (raw : Raw) :
    (startOf dtz raw).isDateVal = true ∨ (startOf dtz raw).isAware = true := by
  unfold startOf _parse_start
  cases raw.start.dateField with
  | some d => left; rfl
  | none =>
    cases raw.start.dateTimeField with
    | some a => right; rfl
    | none => left; rfl

lemma lebOfLtb {a b : PyTime} (h : a.ltb b = true) : a.leb b = true := by
  cases a <;> cases b <;>
    simp [PyTime.ltb, PyTime.leb, PyTime.lt?, PyTime.le?] at h ⊢ <;> omega

lemma claimConvertEqOfMutualLeb {st t u : PyTime}
    (hts : matchesSeriesShape st t = true) (hus : matchesSeriesShape st u = true)
    (h1 : t.leb u = true) (h2 : u.leb t = true) :
    claimConvert st t = claimConvert st u := by
  cases st <;> cases t <;> cases u <;> simp [matchesSeriesShape] at hts hus <;>
    simp [PyTime.leb, PyTime.le?, claimConvert] at h1 h2 ⊢ <;> omega

lemma walkRegsNoCand (l : List PyTime) :
    walkRegs (none, none) [] l =
      .ok (match l with
        | [] => (none, none)
        | t :: _ => (some t, some .master)) := by
  cases l with
  | nil => rfl
  | cons t ts => rfl

lemma isAwareDatetimeAs {st : PyTime} (hst : st.isAware = true) (v : PyTime) :
    (datetime_as v st).isAware = true := by
  cases st <;> cases v <;> simp [PyTime.isAware, datetime_as] at hst ⊢

lemma ensureDatetimeAware {t : PyTime} (h : t.isAware = true) : ensure_datetime t = t := by
  cases t <;> simp [PyTime.isAware] at h ⊢ <;> rfl

lemma ltAwareIsSome {a b : PyTime} (ha : a.isAware = true) (hb : b.isAware = true) :
    a.lt? b = some (a.ltb b) := by
  cases a <;> cases b <;> simp [PyTime.isAware] at ha hb <;> simp [PyTime.lt?, PyTime.ltb]

lemma leAwareIsSome {a b : PyTime} (ha : a.isAware = true) (hb : b.isAware = true) :
    a.le? b = some (a.leb b) := by
  cases a <;> cases b <;> simp [PyTime.isAware] at ha hb <;> simp [PyTime.le?, PyTime.leb]

lemma lebReflAware {t : PyTime} (h : t.isAware = true) : t.leb t = true := by
  cases t <;> simp [PyTime.isAware] at h <;> simp [PyTime.leb, PyTime.le?]

lemma lebTransAware {a b c : PyTime} (ha : a.isAware = true) (hb : b.isAware = true)
    (hc : c.isAware = true) (h1 : a.leb b = true) (h2 : b.leb c = true) :
    a.leb c = true := by
  cases a <;> cases b <;> cases c <;> simp [PyTime.isAware] at ha hb hc <;>
    simp [PyTime.leb, PyTime.le?] at h1 h2 ⊢ <;> omega

lemma lebOfNotLtbAware {a b : PyTime} (ha : a.isAware = true) (hb : b.isAware = true)
    (h : b.ltb a = false) : a.leb b = true := by
  cases a <;> cases b <;> simp [PyTime.isAware] at ha hb <;>
    simp [PyTime.ltb, PyTime.lt?, PyTime.leb, PyTime.le?] at h ⊢ <;> omega

lemma memNonCancelled (dtz : String) (excs : List ExcEvent) (p : PyTime × ExcEvent) :
    p ∈ nonCancelledExceptionStarts dtz excs ↔
      p.2 ∈ excs ∧
      (_is_cancelled p.2.raw || is_declined_by_me p.2.raw || is_declined_by_others p.2.raw)
        = false ∧
      p.1 = startOf dtz p.2.raw := by
  unfold nonCancelledExceptionStarts
  rw [List.mem_map]
  constructor
  · rintro ⟨x, hx, rfl⟩
    rw [List.mem_filter] at hx
    refine ⟨hx.1, ?_, rfl⟩
    simpa using hx.2
  · rintro ⟨h1, h2, h3⟩
    refine ⟨p.2, List.mem_filter.2 ⟨h1, by simpa using h2⟩, ?_⟩
    rw [← h3]

lemma filterFutureOk (after : PyTime) (l : List (PyTime × ExcEvent))
    (h : ∀ p ∈ l, (after.lt? p.1).isSome) :
    filterFuture after l = .ok (l.filter (fun p => after.ltb p.1)) := by
  induction l with
  | nil => rfl
  | cons x xs ih =>
    have hx := h x (by simp)
    rcases hb : after.lt? x.1 with _ | b
    · rw [hb] at hx; simp at hx
    · have hltb : after.ltb x.1 = b := by simp [PyTime.ltb, hb]
      unfold filterFuture
      rw [hb]
      simp only [cmpOrErr]
      rw [ih (fun p hp => h p (by simp [hp]))]
      cases b <;> simp [Bind.bind, Except.bind, List.filter_cons, hltb]

lemma minFoldOk (l : List (PyTime × ExcEvent)) (cur : PyTime × ExcEvent)
    (hcur : cur.1.isAware = true) (hl : ∀ p ∈ l, p.1.isAware = true) :
    ∃ m, minFold cur l = .ok m ∧ m.1.isAware = true ∧ (m = cur ∨ m ∈ l) ∧
      m.1.leb cur.1 = true ∧ ∀ q ∈ l, m.1.leb q.1 = true := by
  induction l generalizing cur with
  | nil => exact ⟨cur, rfl, hcur, Or.inl rfl, lebReflAware hcur, by simp⟩
  | cons y ys ih =>
    have hy : y.1.isAware = true := hl y (by simp)
    have hys : ∀ p ∈ ys, p.1.isAware = true := fun p hp => hl p (by simp [hp])
    have hcmp := ltAwareIsSome hy hcur
    have hstep : minFold cur (y :: ys) = minFold (if y.1.ltb cur.1 then y else cur) ys := by
      conv_lhs => rw [minFold]
      rw [hcmp]
      rfl
    cases hb : y.1.ltb cur.1 with
    | true =>
      obtain ⟨m, hm, hmaw, hmem, hmle, hall⟩ := ih y hy hys
      refine ⟨m, by rw [hstep, hb]; simpa using hm, hmaw, ?_, ?_, ?_⟩
      · rcases hmem with h | h
        · exact Or.inr (by simp [h])
        · exact Or.inr (by simp [h])
      · exact lebTransAware hmaw hy hcur hmle (lebOfLtb hb)
      · intro q hq
        rcases List.mem_cons.1 hq with h | h
        · rw [h]; exact hmle
        · exact hall q h
    | false =>
      obtain ⟨m, hm, hmaw, hmem, hmle, hall⟩ := ih cur hcur hys
      refine ⟨m, by rw [hstep, hb]; simpa using hm, hmaw, ?_, hmle, ?_⟩
      · rcases hmem with h | h
        · exact Or.inl h
        · exact Or.inr (by simp [h])
      · intro q hq
        rcases List.mem_cons.1 hq with h | h
        · rw [h]
          exact lebTransAware hmaw hcur hy hmle (lebOfNotLtbAware hcur hy hb)
        · exact hall q h

lemma pyMinFstOk (l : List (PyTime × ExcEvent)) (hl : ∀ p ∈ l, p.1.isAware = true) :
    (l = [] ∧ pyMinFst l = .ok (none, none)) ∨
    (∃ m, m ∈ l ∧ pyMinFst l = .ok (some m.1, some (.exc m.2)) ∧
      m.1.isAware = true ∧ ∀ q ∈ l, m.1.leb q.1 = true) := by
  cases l with
  | nil => exact Or.inl ⟨rfl, rfl⟩
  | cons x xs =>
    obtain ⟨m, hm, hmaw, hmem, hmle, hall⟩ :=
      minFoldOk xs x (hl x (by simp)) (fun p hp => hl p (by simp [hp]))
    refine Or.inr ⟨m, ?_, ?_, hmaw, ?_⟩
    · rcases hmem with h | h
      · simp [h]
      · simp [h]
    · simp only [pyMinFst]
      rw [hm]
      rfl
    · intro q hq
      rcases List.mem_cons.1 hq with h | h
      · rw [h]; exact hmle
      · exact hall q h

lemma walkRegsNoneStep (origs : List PyTime) (t : PyTime) (ts : List PyTime) :
    walkRegs (none, none) origs (t :: ts) =
      (if origs.any (fun o => o.pyEq t) then walkRegs (none, none) origs ts
       else .ok (some t, some .master)) := rfl

lemma walkRegsSomeStep (s : PyTime) (src : Source) (origs : List PyTime) (t : PyTime)
    (ts : List PyTime) (b : Bool) (hb : s.le? t = some b) :
    walkRegs (some s, some src) origs (t :: ts) =
      (if b then .ok (some s, some src)
       else if origs.any (fun o => o.pyEq t) then walkRegs (some s, some src) origs ts
       else .ok (some t, some .master)) := by
  show Bind.bind (cmpOrErr (s.le? t))
      (fun hit =>
        if hit then Except.ok (some s, some src)
        else if origs.any (fun o => o.pyEq t) then walkRegs (some s, some src) origs ts
        else Except.ok (some t, some Source.master)) = _
  rw [hb]
  rfl

lemma claimWalkNilStep (excCand : Option (PyTime × ExcEvent)) (origs : List PyTime) :
    claimWalk excCand origs [] = excCandResult excCand := by
  cases excCand <;> rfl

lemma claimWalkNoneStep (origs : List PyTime) (t : PyTime) (ts : List PyTime) :
    claimWalk none origs (t :: ts) =
      (if origs.any (fun o => o.pyEq t) then claimWalk none origs ts
       else (some t, some .master)) := rfl

lemma claimWalkSomeStep (sx : PyTime × ExcEvent) (origs : List PyTime) (t : PyTime)
    (ts : List PyTime) :
    claimWalk (some sx) origs (t :: ts) =
      (if sx.1.leb t then (some sx.1, some (.exc sx.2))
       else if origs.any (fun o => o.pyEq t) then claimWalk (some sx) origs ts
       else (some t, some .master)) := rfl

lemma walkRegsEqClaimWalk (excCand : Option (PyTime × ExcEvent)) (origs : List PyTime)
    (l : List PyTime) (hc : ∀ sx, excCand = some sx → sx.1.isAware = true)
    (hl : ∀ t ∈ l, t.isAware = true) :
    walkRegs (excCandResult excCand) origs l = .ok (claimWalk excCand origs l) := by
  induction l with
  | nil => cases excCand <;> rfl
  | cons t ts ih =>
    have ht : t.isAware = true := hl t (by simp)
    have hts : ∀ u ∈ ts, u.isAware = true := fun u hu => hl u (by simp [hu])
    cases hec : excCand with
    | none =>
      rw [show excCandResult (none : Option (PyTime × ExcEvent)) = (none, none) from rfl,
        walkRegsNoneStep, claimWalkNoneStep]
      by_cases hmem : origs.any (fun o => o.pyEq t)
      · rw [if_pos hmem, if_pos hmem]
        have ihn := ih hts
        rw [hec] at ihn
        simpa [excCandResult] using ihn
      · rw [if_neg hmem, if_neg hmem]
    | some sx =>
      have hsx : sx.1.isAware = true := hc sx hec
      have hle := leAwareIsSome hsx ht
      rw [show excCandResult (some sx) = (some sx.1, some (Source.exc sx.2)) from rfl,
        walkRegsSomeStep sx.1 (Source.exc sx.2) origs t ts (sx.1.leb t) hle,
        claimWalkSomeStep]
      cases hb : sx.1.leb t with
      | true => simp
      | false =>
        simp only [Bool.false_eq_true, if_false]
        by_cases hmem : origs.any (fun o => o.pyEq t)
        · rw [if_pos hmem, if_pos hmem]
          have ihn := ih hts
          rw [hec] at ihn
          simpa [excCandResult] using ihn
        · rw [if_neg hmem, if_neg hmem]

lemma claimWalkShapeAware (excCand : Option (PyTime × ExcEvent)) (origs : List PyTime)
    (l : List PyTime) (hc : ∀ sx, excCand = some sx → sx.1.isAware = true)
    (hl : ∀ t ∈ l, t.isAware = true) :
    ∀ t, (claimWalk excCand origs l).1 = some t → t.isAware = true := by
  induction l with
  | nil =>
    intro t ht
    rw [claimWalkNilStep] at ht
    cases hec : excCand with
    | none => rw [hec] at ht; simp [excCandResult] at ht
    | some sx =>
      rw [hec] at ht
      simp [excCandResult] at ht
      rw [← ht]
      exact hc sx hec
  | cons u us ih =>
    intro t ht
    have hu : u.isAware = true := hl u (by simp)
    have hus : ∀ w ∈ us, w.isAware = true := fun w hw => hl w (by simp [hw])
    cases hec : excCand with
    | none =>
      rw [hec, claimWalkNoneStep] at ht
      by_cases hmem : origs.any (fun o => o.pyEq u)
      · rw [if_pos hmem] at ht
        have ihn := ih hus
        rw [hec] at ihn
        exact ihn t ht
      · rw [if_neg hmem] at ht
        simp at ht
        rw [← ht]
        exact hu
    | some sx =>
      rw [hec, claimWalkSomeStep] at ht
      by_cases hb : sx.1.leb u = true
      · rw [if_pos hb] at ht
        simp at ht
        rw [← ht]
        exact hc sx hec
      · rw [if_neg hb] at ht
        by_cases hmem : origs.any (fun o => o.pyEq u)
        · rw [if_pos hmem] at ht
          have ihn := ih hus
          rw [hec] at ihn
          exact ihn t ht
        · rw [if_neg hmem] at ht
          simp at ht
          rw [← ht]
          exact hu

lemma qualifiesClaimIff (dtz : String) (afterDt : PyTime) (x : ExcEvent) :
    qualifiesClaim dtz afterDt x = true ↔
      ((_is_cancelled x.raw || is_declined_by_me x.raw || is_declined_by_others x.raw)
          = false ∧
        afterDt.ltb (startOf dtz x.raw) = true) := by
  unfold qualifiesClaim
  cases _is_cancelled x.raw <;> cases is_declined_by_me x.raw <;>
    cases is_declined_by_others x.raw <;> simp

/-! ## Claim theorems -/

/-- C5: for an all-day event, recurrence normalization rewrites an absolute
`UNTIL=YYYYMMDDTHHMMSSZ` token of an `RRULE` line to the bare date (no
time, no zone suffix) of the UTC instant converted into the calendar's
default timezone; in particular `UNTIL=20240615T000000Z` with default
timezone `America/New_York` rewrites to the cutoff date `2024-06-14`;
lines without both `RRULE` and `UNTIL` markers are left unchanged, and the
recurrence of a non-all-day event is left unchanged. -/
theorem c5_until_rewrite :
    (∀ (dtz : String) (d8 d6 : List Char),
        d8.length = 8 → d6.length = 6 →
        (∀ c ∈ d8, c.isDigit) → (∀ c ∈ d6, c.isDigit) →
        fix_utc dtz ("RRULE:FREQ=DAILY;UNTIL=" ++ String.mk (d8 ++ 'T' :: (d6 ++ ['Z'])))
          = "RRULE:FREQ=DAILY;UNTIL="
              ++ bareDateText (localCivilDate dtz (compactUtcInstant d8 d6))) ∧
    fix_utc "America/New_York" "RRULE:FREQ=DAILY;UNTIL=20240615T000000Z"
      = "RRULE:FREQ=DAILY;UNTIL=20240614" ∧
    (∀ (dtz : String) (line : String),
        containsSub line.toList "RRULE".toList = false ∨
          containsSub line.toList "UNTIL".toList = false →
        fix_utc dtz line = line) ∧
    (∀ (dtz : String) (raw : Raw) (lines : List String),
        raw.recurrence = some lines → is_allday (startOf dtz raw) = false →
        _get_recurrence dtz raw = some (String.intercalate "\n" lines)) := by
  have main : ∀ (dtz : String) (d8 d6 : List Char),
      d8.length = 8 → d6.length = 6 →
      (∀ c ∈ d8, c.isDigit) → (∀ c ∈ d6, c.isDigit) →
      fix_utc dtz ("RRULE:FREQ=DAILY;UNTIL=" ++ String.mk (d8 ++ 'T' :: (d6 ++ ['Z'])))
        = "RRULE:FREQ=DAILY;UNTIL="
            ++ bareDateText (localCivilDate dtz (compactUtcInstant d8 d6)) := by
    intro dtz d8 d6 h8 h6 hd8 hd6
    have hlist : ("RRULE:FREQ=DAILY;UNTIL=" ++ String.mk (d8 ++ 'T' :: (d6 ++ ['Z']))).toList
        = 'R' :: 'R' :: 'U' :: 'L' :: 'E' :: ':' :: 'F' :: 'R' :: 'E' :: 'Q' :: '=' :: 'D'
          :: 'A' :: 'I' :: 'L' :: 'Y' :: ';'
          :: 'U' :: 'N' :: 'T' :: 'I' :: 'L' :: '=' :: (d8 ++ 'T' :: (d6 ++ ['Z'])) := rfl
    have hc1 : containsSub
        ('R' :: 'R' :: 'U' :: 'L' :: 'E' :: ':' :: 'F' :: 'R' :: 'E' :: 'Q' :: '=' :: 'D'
          :: 'A' :: 'I' :: 'L' :: 'Y' :: ';'
          :: 'U' :: 'N' :: 'T' :: 'I' :: 'L' :: '=' :: (d8 ++ 'T' :: (d6 ++ ['Z'])))
        "RRULE".toList = true := rfl
    have hc2 : containsSub
        ('R' :: 'R' :: 'U' :: 'L' :: 'E' :: ':' :: 'F' :: 'R' :: 'E' :: 'Q' :: '=' :: 'D'
          :: 'A' :: 'I' :: 'L' :: 'Y' :: ';'
          :: 'U' :: 'N' :: 'T' :: 'I' :: 'L' :: '=' :: (d8 ++ 'T' :: (d6 ++ ['Z'])))
        "UNTIL".toList = true := by
      simp only [containsSub, isPrefixChars]
      simp
    have hsearch : searchUntil
        ('R' :: 'R' :: 'U' :: 'L' :: 'E' :: ':' :: 'F' :: 'R' :: 'E' :: 'Q' :: '=' :: 'D'
          :: 'A' :: 'I' :: 'L' :: 'Y' :: ';'
          :: 'U' :: 'N' :: 'T' :: 'I' :: 'L' :: '=' :: (d8 ++ 'T' :: (d6 ++ ['Z'])))
        = some (d8, d6) := by
      iterate 17 rw [stepSearch (by rfl)]
      exact searchAtMatch d8 d6 h8 h6 hd8 hd6
    have hsub : subUntilAll (untilReplacement dtz d8 d6)
        ('R' :: 'R' :: 'U' :: 'L' :: 'E' :: ':' :: 'F' :: 'R' :: 'E' :: 'Q' :: '=' :: 'D'
          :: 'A' :: 'I' :: 'L' :: 'Y' :: ';'
          :: 'U' :: 'N' :: 'T' :: 'I' :: 'L' :: '=' :: (d8 ++ 'T' :: (d6 ++ ['Z'])))
        = "RRULE:FREQ=DAILY;".toList ++ untilReplacement dtz d8 d6 := by
      iterate 17 rw [stepSub (by rfl)]
      rw [subAtMatch (untilReplacement dtz d8 d6) d8 d6 h8 h6 hd8 hd6]
      rfl
    unfold fix_utc
    rw [hlist, hc1, hc2, hsearch]
    simp only [Bool.not_true, Bool.or_self, Bool.false_eq_true, if_false]
    rw [hsub]
    rfl
  refine ⟨main, ?_, ?_, ?_⟩
  · have h := main "America/New_York" "20240615".toList "000000".toList rfl rfl
      (by decide) (by decide)
    exact h.trans (by decide)
  · intro dtz line h
    unfold fix_utc
    simp only [String.toList] at h
    rcases h with h | h <;> simp [h]
  · intro dtz raw lines hrec hall
    unfold _get_recurrence
    rw [hrec]
    simp [hall]

/-- Witness for C5 at a concrete input: the general rewrite applied to the
digits of `20240615T000000Z` under `America/New_York` yields the cutoff
`2024-06-14`. -/
theorem c5_until_rewrite_witness :
    ("20240615".toList.length = 8 ∧ (∀ c ∈ "20240615".toList, c.isDigit) ∧
      "000000".toList.length = 6 ∧ (∀ c ∈ "000000".toList, c.isDigit)) ∧
    fix_utc "America/New_York"
        ("RRULE:FREQ=DAILY;UNTIL=" ++ String.mk ("20240615".toList ++ 'T' :: ("000000".toList ++ ['Z'])))
      = "RRULE:FREQ=DAILY;UNTIL="
          ++ bareDateText (localCivilDate "America/New_York"
              (compactUtcInstant "20240615".toList "000000".toList)) :=
  ⟨⟨rfl, by decide, rfl, by decide⟩,
   c5_until_rewrite.1 "America/New_York" "20240615".toList "000000".toList rfl rfl
     (by decide) (by decide)⟩

/-- C2: for every non-recurring event (no `recurrence` field) and every
`after`: the result is `(start, self)` iff the event is not declined by
self, not declined by all others, and the start is strictly after `after`
(normalized to the start's shape), else `(None, None)`; and the
cancellation status field is never consulted (changing it changes
nothing). -/
theorem c2_non_recurring (dtz : String) (e : Event) (gen : List PyTime) (after : PyTime)
    (hrec : e.raw.recurrence = none) (hwf : WFRawTime e.raw.start) :
    (next_occurrence dtz e gen after =
      .ok (if (datetime_as after (startOf dtz e.raw)).ltb (startOf dtz e.raw)
              && !(is_declined_by_me e.raw || is_declined_by_others e.raw)
           then (some (startOf dtz e.raw), some .master) else (none, none))) ∧
    (∀ st : String,
      next_occurrence dtz { e with raw := { e.raw with status := st } } gen after
        = next_occurrence dtz e gen after) := by
  constructor
  · simp [next_occurrence, hrec, ltOfDatetimeAs, cmpOrErr, Bind.bind, Except.bind]
  · intro st
    simp [next_occurrence, hrec, startOf, _parse_start, _get_timezone, is_declined_by_me,
      is_declined_by_others, response_status, attendeesOf]

/-- Witness for C2 at a concrete input: a pending non-recurring timed event
with a start still ahead is returned with itself. -/
theorem c2_non_recurring_witness :
    evSingle.raw.recurrence = none ∧ WFRawTime evSingle.raw.start ∧
    next_occurrence "Europe/Sofia" evSingle [] (.aware 0 "Europe/Sofia")
      = .ok (some (.aware 54000 "Europe/Sofia"), some .master) :=
  ⟨rfl, Or.inr rfl,
   ((c2_non_recurring "Europe/Sofia" evSingle [] (.aware 0 "Europe/Sofia") rfl
      (Or.inr rfl)).1).trans rfl⟩

/-- C4: for every recurring event with no exception instances whose master
is not declined, `next_occurrence(after)` returns the first rule-generated
instant strictly after the normalized `after`, paired with the master, the
instant converted to a calendar date when the series is all-day and
otherwise re-tagged into the series' own start timezone; `(None, None)`
when the rule generates nothing after `after`. -/
theorem c4_no_exceptions (dtz : String) (e : Event) (gen : List PyTime) (after : PyTime)
    (hrec : e.raw.recurrence.isSome) (hexc : e.exceptions = [])
    (hnd : (is_declined_by_me e.raw || is_declined_by_others e.raw) = false)
    (hwf : WFRawTime e.raw.start)
    (hshape : ∀ t ∈ gen, matchesSeriesShape (startOf dtz e.raw) t = true)
    (hsorted : gen.Pairwise (fun a b => a.ltb b = true)) :
    ((∀ t ∈ gen, (ensure_datetime (datetime_as after (startOf dtz e.raw))).ltb t = false) →
        next_occurrence dtz e gen after = .ok (none, none)) ∧
    (∀ t ∈ gen, (ensure_datetime (datetime_as after (startOf dtz e.raw))).ltb t = true →
      (∀ u ∈ gen, (ensure_datetime (datetime_as after (startOf dtz e.raw))).ltb u = true →
          t.leb u = true) →
      next_occurrence dtz e gen after
        = .ok (some (claimConvert (startOf dtz e.raw) t), some .master)) := by
  obtain ⟨ls, hls⟩ := Option.isSome_iff_exists.1 hrec
  have hfind : _find_next_occurrence dtz e gen
      (datetime_as after (startOf dtz e.raw)) =
      walkRegs (none, none) []
        (xafter gen (ensure_datetime (datetime_as after (startOf dtz e.raw)))) := by
    unfold _find_next_occurrence
    rw [hexc]
    simp [nonCancelledExceptionStarts, filterFuture, pyMinFst, hnd, Bind.bind, Except.bind]
  constructor
  · intro hnone
    have hfil : xafter gen (ensure_datetime (datetime_as after (startOf dtz e.raw))) = [] := by
      unfold xafter
      exact List.filter_eq_nil_iff.2 (fun t ht => by simp [hnone t ht])
    unfold next_occurrence
    rw [hls]
    simp [hfind, hfil, walkRegsNoCand, Bind.bind, Except.bind]
  · intro t ht hlt hmin
    rcases hfil : xafter gen (ensure_datetime (datetime_as after (startOf dtz e.raw))) with
      _ | ⟨t0, rest⟩
    · exfalso
      have : t ∈ xafter gen (ensure_datetime (datetime_as after (startOf dtz e.raw))) := by
        unfold xafter
        exact List.mem_filter.2 ⟨ht, hlt⟩
      rw [hfil] at this
      simp at this
    · have ht0mem : t0 ∈ xafter gen (ensure_datetime (datetime_as after (startOf dtz e.raw))) := by
        rw [hfil]; simp
      have ht0gen : t0 ∈ gen := (List.mem_filter.1 ht0mem).1
      have ht0lt : (ensure_datetime (datetime_as after (startOf dtz e.raw))).ltb t0 = true :=
        (List.mem_filter.1 ht0mem).2
      -- t0 is at or before t: t is in the filtered list, whose head is t0,
      -- and the filtered list is sorted
      have htmem : t ∈ xafter gen (ensure_datetime (datetime_as after (startOf dtz e.raw))) := by
        unfold xafter
        exact List.mem_filter.2 ⟨ht, hlt⟩
      have hpair : (xafter gen
          (ensure_datetime (datetime_as after (startOf dtz e.raw)))).Pairwise
            (fun a b => a.ltb b = true) := hsorted.filter _
      have ht0le : t0.leb t = true := by
        rw [hfil] at htmem hpair
        rcases (List.mem_cons.1 htmem) with h | h
        · subst h
          cases hx : t.leb t
          · exfalso
            have := lebOfLtb (a := t) (b := t)
            -- t.leb t from reflexivity on shapes
            cases t <;> simp [PyTime.leb, PyTime.le?] at hx
          · rfl
        · exact lebOfLtb ((List.pairwise_cons.1 hpair).1 t h)
      have hconv : claimConvert (startOf dtz e.raw) t = claimConvert (startOf dtz e.raw) t0 :=
        claimConvertEqOfMutualLeb (hshape t ht) (hshape t0 ht0gen)
          (hmin t0 ht0gen ht0lt) ht0le
      unfold next_occurrence
      rw [hls]
      rw [hconv]
      have hshape0 := hshape t0 ht0gen
      rcases startOfShape dtz e.raw with hsd | hsa
      · -- all-day series: the instant is naive, `.date()` succeeds
        rcases hst : startOf dtz e.raw with d | ⟨d, s⟩ | ⟨a, tz⟩ <;> rw [hst] at hsd <;>
          simp [PyTime.isDateVal] at hsd
        rw [hst] at hshape0
        rcases ht0s : t0 with d0 | ⟨d0, s0⟩ | ⟨a0, tz0⟩ <;> rw [ht0s] at hshape0 <;>
          simp [matchesSeriesShape] at hshape0
        rw [hst] at hfind hfil
        simp [hfind, hfil, walkRegsNoCand, ht0s, Bind.bind, Except.bind, is_allday,
          PyTime.isDateVal, PyTime.pydate?, claimConvert]
      · -- timed series: the instant is aware, `astimezone` succeeds
        rcases hst : startOf dtz e.raw with d | ⟨d, s⟩ | ⟨a, tz⟩ <;> rw [hst] at hsa <;>
          simp [PyTime.isAware] at hsa
        rw [hst] at hshape0
        rcases ht0s : t0 with d0 | ⟨d0, s0⟩ | ⟨a0, tz0⟩ <;> rw [ht0s] at hshape0 <;>
          simp [matchesSeriesShape] at hshape0
        rw [hst] at hfind hfil
        simp [hfind, hfil, walkRegsNoCand, ht0s, Bind.bind, Except.bind, is_allday,
          PyTime.isDateVal, PyTime.astimezone?, claimConvert]

/-- Witness for C4 at a concrete input: the timed daily series without
exceptions returns its second instant after an `after` between the first
two, re-tagged into the series' zone. -/
theorem c4_no_exceptions_witness :
    (evTimed.raw.recurrence.isSome ∧
      (is_declined_by_me evTimed.raw || is_declined_by_others evTimed.raw) = false) ∧
    next_occurrence "Europe/Sofia" { evTimed with exceptions := [] } genTimed
        (.aware 86400 "Europe/Sofia")
      = .ok (some (.aware (54000 + 86400) "Europe/Sofia"), some .master) :=
  ⟨⟨rfl, rfl⟩,
   ((c4_no_exceptions "Europe/Sofia" { evTimed with exceptions := [] } genTimed
        (.aware 86400 "Europe/Sofia") rfl rfl rfl (Or.inr rfl) (by decide) (by decide)).2
      (.aware (54000 + 86400) "Europe/Sofia") (by decide) (by decide) (by decide)).trans rfl⟩

/-- C1 (amended to timed series whose exception instances are timed): for
every such recurring event whose master is not declined, `next_occurrence`
walks the rule-generated instants strictly after the normalized `after` in
generation order; at each instant, a qualifying exception candidate (not
cancelled, not declined, own start strictly after `after`, earliest such
start) with start at or before the instant is returned; otherwise the
instant is returned with the master unless it equals an exception's
original start; an exhausted stream falls back to the exception candidate
or `(None, None)`; the returned instant is re-tagged into the series' start
timezone.  (For an all-day series with a qualifying exception candidate the
source instead raises `TypeError`; see the counterexample.) -/
theorem c1_merge_walk_timed (dtz : String) (e : Event) (gen : List PyTime) (after : PyTime)
    (hrec : e.raw.recurrence.isSome)
    (hst : (startOf dtz e.raw).isAware = true)
    (hexcT : ∀ x ∈ e.exceptions, (startOf dtz x.raw).isAware = true)
    (hexcO : ∀ x ∈ e.exceptions, x.raw.originalStartTime.isSome)
    (hgen : ∀ t ∈ gen, t.isAware = true)
    (hnd : (is_declined_by_me e.raw || is_declined_by_others e.raw) = false) :
    ∃ excCand : Option (PyTime × ExcEvent),
      IsEarliestQualifying dtz (datetime_as after (startOf dtz e.raw)) e.exceptions excCand ∧
      next_occurrence dtz e gen after =
        .ok (retagToSeriesTz (startOf dtz e.raw)
          (claimWalk excCand (e.exceptions.map (fun x => _get_original_start dtz x.raw))
            (gen.filter (fun t => (datetime_as after (startOf dtz e.raw)).ltb t)))) := by
  obtain ⟨ls, hls⟩ := Option.isSome_iff_exists.1 hrec
  have hAft : (datetime_as after (startOf dtz e.raw)).isAware = true :=
    isAwareDatetimeAs hst after
  have hcandsAware : ∀ p ∈ nonCancelledExceptionStarts dtz e.exceptions,
      p.1.isAware = true := by
    intro p hp
    obtain ⟨hmem, _, heq⟩ := (memNonCancelled dtz e.exceptions p).1 hp
    rw [heq]
    exact hexcT p.2 hmem
  have hFilterOk := filterFutureOk (datetime_as after (startOf dtz e.raw))
    (nonCancelledExceptionStarts dtz e.exceptions)
    (fun p hp => by rw [ltAwareIsSome hAft (hcandsAware p hp)]; rfl)
  have hfiltAware : ∀ p ∈ (nonCancelledExceptionStarts dtz e.exceptions).filter
      (fun p => (datetime_as after (startOf dtz e.raw)).ltb p.1), p.1.isAware = true :=
    fun p hp => hcandsAware p (List.mem_filter.1 hp).1
  have hfiltMem : ∀ p, p ∈ (nonCancelledExceptionStarts dtz e.exceptions).filter
      (fun p => (datetime_as after (startOf dtz e.raw)).ltb p.1) ↔
      (p.2 ∈ e.exceptions ∧
        qualifiesClaim dtz (datetime_as after (startOf dtz e.raw)) p.2 = true ∧
        p.1 = startOf dtz p.2.raw) := by
    intro p
    rw [List.mem_filter, memNonCancelled, qualifiesClaimIff]
    constructor
    · rintro ⟨⟨h1, h2, h3⟩, h4⟩
      rw [h3] at h4
      exact ⟨h1, ⟨h2, h4⟩, h3⟩
    · rintro ⟨h1, ⟨h2, h4⟩, h3⟩
      rw [← h3] at h4
      exact ⟨⟨h1, h2, h3⟩, h4⟩
  have hregs : ∀ t ∈ gen.filter (fun t => (datetime_as after (startOf dtz e.raw)).ltb t),
      t.isAware = true := fun t ht => hgen t (List.mem_filter.1 ht).1
  rcases pyMinFstOk ((nonCancelledExceptionStarts dtz e.exceptions).filter
      (fun p => (datetime_as after (startOf dtz e.raw)).ltb p.1)) hfiltAware with
    ⟨hempty, hminOk⟩ | ⟨m, hmMem, hminOk, hmAware, hmMin⟩
  · refine ⟨none, ?_, ?_⟩
    · intro x hx
      cases hq : qualifiesClaim dtz (datetime_as after (startOf dtz e.raw)) x with
      | false => rfl
      | true =>
        exfalso
        have : (startOf dtz x.raw, x) ∈ (nonCancelledExceptionStarts dtz e.exceptions).filter
            (fun p => (datetime_as after (startOf dtz e.raw)).ltb p.1) :=
          (hfiltMem (startOf dtz x.raw, x)).2 ⟨hx, hq, rfl⟩
        rw [hempty] at this
        simp at this
    · have hwalk := walkRegsEqClaimWalk none
        (e.exceptions.map (fun x => _get_original_start dtz x.raw))
        (gen.filter (fun t => (datetime_as after (startOf dtz e.raw)).ltb t))
        (fun sx hsx => by simp at hsx) hregs
      have hfind : _find_next_occurrence dtz e gen (datetime_as after (startOf dtz e.raw)) =
          .ok (claimWalk none (e.exceptions.map (fun x => _get_original_start dtz x.raw))
            (gen.filter (fun t => (datetime_as after (startOf dtz e.raw)).ltb t))) := by
        unfold _find_next_occurrence
        rw [hFilterOk]
        simp only [Bind.bind, Except.bind]
        rw [hminOk]
        simp only [hnd, Bool.false_eq_true, if_false, ensureDatetimeAware hAft]
        simpa [excCandResult, xafter] using hwalk
      unfold next_occurrence
      rw [hls]
      simp only [Bind.bind, Except.bind, hfind]
      rcases hp : (claimWalk none (e.exceptions.map (fun x => _get_original_start dtz x.raw))
          (gen.filter (fun t => (datetime_as after (startOf dtz e.raw)).ltb t))).1 with _ | t
      · simp [retagToSeriesTz, hp]
      · have htAware := claimWalkShapeAware none
          (e.exceptions.map (fun x => _get_original_start dtz x.raw))
          (gen.filter (fun t => (datetime_as after (startOf dtz e.raw)).ltb t))
          (fun sx hsx => by simp at hsx) hregs t hp
        rcases hstval : startOf dtz e.raw with d | ⟨d, s⟩ | ⟨sa, stz⟩ <;>
          rw [hstval] at hst <;> simp [PyTime.isAware] at hst
        rcases htval : t with d0 | ⟨d0, s0⟩ | ⟨a0, tz0⟩ <;>
          rw [htval] at htAware <;> simp [PyTime.isAware] at htAware
        rw [hstval] at hp
        simp [hp, htval, retagToSeriesTz, is_allday, PyTime.isDateVal, PyTime.astimezone?,
          claimConvert, Bind.bind, Except.bind]
  · obtain ⟨hmExc, hmQual, hmStart⟩ := (hfiltMem m).1 hmMem
    refine ⟨some m, ⟨hmExc, hmQual, hmStart, ?_⟩, ?_⟩
    · intro x hx hq
      exact hmMin (startOf dtz x.raw, x) ((hfiltMem (startOf dtz x.raw, x)).2 ⟨hx, hq, rfl⟩)
    · have hwalk := walkRegsEqClaimWalk (some m)
        (e.exceptions.map (fun x => _get_original_start dtz x.raw))
        (gen.filter (fun t => (datetime_as after (startOf dtz e.raw)).ltb t))
        (fun sx hsx => by rw [← Option.some_inj.1 hsx]; exact hmAware) hregs
      have hfind : _find_next_occurrence dtz e gen (datetime_as after (startOf dtz e.raw)) =
          .ok (claimWalk (some m) (e.exceptions.map (fun x => _get_original_start dtz x.raw))
            (gen.filter (fun t => (datetime_as after (startOf dtz e.raw)).ltb t))) := by
        unfold _find_next_occurrence
        rw [hFilterOk]
        simp only [Bind.bind, Except.bind]
        rw [hminOk]
        simp only [hnd, Bool.false_eq_true, if_false, ensureDatetimeAware hAft]
        simpa [excCandResult, xafter] using hwalk
      unfold next_occurrence
      rw [hls]
      simp only [Bind.bind, Except.bind, hfind]
      rcases hp : (claimWalk (some m)
          (e.exceptions.map (fun x => _get_original_start dtz x.raw))
          (gen.filter (fun t => (datetime_as after (startOf dtz e.raw)).ltb t))).1 with _ | t
      · simp [retagToSeriesTz, hp]
      · have htAware := claimWalkShapeAware (some m)
          (e.exceptions.map (fun x => _get_original_start dtz x.raw))
          (gen.filter (fun t => (datetime_as after (startOf dtz e.raw)).ltb t))
          (fun sx hsx => by rw [← Option.some_inj.1 hsx]; exact hmAware)
          hregs t hp
        rcases hstval : startOf dtz e.raw with d | ⟨d, s⟩ | ⟨sa, stz⟩ <;>
          rw [hstval] at hst <;> simp [PyTime.isAware] at hst
        rcases htval : t with d0 | ⟨d0, s0⟩ | ⟨a0, tz0⟩ <;>
          rw [htval] at htAware <;> simp [PyTime.isAware] at htAware
        rw [hstval] at hp
        simp [hp, htval, retagToSeriesTz, is_allday, PyTime.isDateVal, PyTime.astimezone?,
          claimConvert, Bind.bind, Except.bind]

/-- Witness for C1 at a concrete input: in the timed daily series, the
overridden slot is skipped and the exception candidate is returned at its
chronological position (never the plain overridden slot). -/
theorem c1_merge_walk_timed_witness :
    (evTimed.raw.recurrence.isSome ∧
      (is_declined_by_me evTimed.raw || is_declined_by_others evTimed.raw) = false) ∧
    next_occurrence "Europe/Sofia" evTimed genTimed (.aware 176400 "Europe/Sofia")
      = .ok (some (.aware 313200 "Europe/Sofia"), some (.exc excTimed)) := by
  refine ⟨⟨rfl, rfl⟩, ?_⟩
  obtain ⟨excCand, hq, heq⟩ :=
    c1_merge_walk_timed "Europe/Sofia" evTimed genTimed (.aware 176400 "Europe/Sofia")
      rfl rfl (by decide) (by decide) (by decide) rfl
  cases excCand with
  | none =>
    have hfalse := hq excTimed (by decide)
    exact absurd hfalse (by decide)
  | some sx =>
    obtain ⟨hmem, hqual, hstart, hmin⟩ := hq
    have h2 : sx.2 = excTimed := by
      have : evTimed.exceptions = [excTimed] := rfl
      rw [this] at hmem
      simpa using hmem
    have hsx : sx = (PyTime.aware 313200 "Europe/Sofia", excTimed) := by
      obtain ⟨s1, s2⟩ := sx
      simp only at h2 hstart
      rw [h2] at hstart ⊢
      rw [hstart]
      rfl
    rw [hsx] at heq
    exact heq.trans rfl

/-- Counterexample for C1 as stated: for an all-day daily series (master not
declined) with a qualifying rescheduled exception instance, the source does
not return any occurrence — the comparison between the exception's `date`
start and the rule's naive `datetime` instant raises `TypeError`. -/
theorem c1_allday_exception_typeerror :
    next_occurrence "Europe/Sofia" evAllday genAllday (.date 0) = .error .typeError := rfl

/-- C3 (amended to timed series whose exception instances are timed): for
every such recurring event whose master is declined by self or by all
others, `next_occurrence(after)` never returns a rule-generated instant: it
returns the earliest exception instance that is not cancelled, not declined
by self or others, starting strictly after the normalized `after` (re-tagged
into the series' start timezone), or `(None, None)` when none qualifies.
(For an all-day series with a qualifying exception the source instead
raises `AttributeError`; see the counterexample.) -/
theorem c3_declined_master_timed (dtz : String) (e : Event) (gen : List PyTime) (after : PyTime)
    (hrec : e.raw.recurrence.isSome)
    (hst : (startOf dtz e.raw).isAware = true)
    (hexcT : ∀ x ∈ e.exceptions, (startOf dtz x.raw).isAware = true)
    (hexcO : ∀ x ∈ e.exceptions, x.raw.originalStartTime.isSome)
    (hd : (is_declined_by_me e.raw || is_declined_by_others e.raw) = true) :
    ∃ excCand : Option (PyTime × ExcEvent),
      IsEarliestQualifying dtz (datetime_as after (startOf dtz e.raw)) e.exceptions excCand ∧
      next_occurrence dtz e gen after =
        .ok (retagToSeriesTz (startOf dtz e.raw) (excCandResult excCand)) := by
  obtain ⟨ls, hls⟩ := Option.isSome_iff_exists.1 hrec
  have hAft : (datetime_as after (startOf dtz e.raw)).isAware = true :=
    isAwareDatetimeAs hst after
  have hcandsAware : ∀ p ∈ nonCancelledExceptionStarts dtz e.exceptions,
      p.1.isAware = true := by
    intro p hp
    obtain ⟨hmem, _, heq⟩ := (memNonCancelled dtz e.exceptions p).1 hp
    rw [heq]
    exact hexcT p.2 hmem
  have hFilterOk := filterFutureOk (datetime_as after (startOf dtz e.raw))
    (nonCancelledExceptionStarts dtz e.exceptions)
    (fun p hp => by rw [ltAwareIsSome hAft (hcandsAware p hp)]; rfl)
  have hfiltAware : ∀ p ∈ (nonCancelledExceptionStarts dtz e.exceptions).filter
      (fun p => (datetime_as after (startOf dtz e.raw)).ltb p.1), p.1.isAware = true :=
    fun p hp => hcandsAware p (List.mem_filter.1 hp).1
  have hfiltMem : ∀ p, p ∈ (nonCancelledExceptionStarts dtz e.exceptions).filter
      (fun p => (datetime_as after (startOf dtz e.raw)).ltb p.1) ↔
      (p.2 ∈ e.exceptions ∧
        qualifiesClaim dtz (datetime_as after (startOf dtz e.raw)) p.2 = true ∧
        p.1 = startOf dtz p.2.raw) := by
    intro p
    rw [List.mem_filter, memNonCancelled, qualifiesClaimIff]
    constructor
    · rintro ⟨⟨h1, h2, h3⟩, h4⟩
      rw [h3] at h4
      exact ⟨h1, ⟨h2, h4⟩, h3⟩
    · rintro ⟨h1, ⟨h2, h4⟩, h3⟩
      rw [← h3] at h4
      exact ⟨⟨h1, h2, h3⟩, h4⟩
  rcases pyMinFstOk ((nonCancelledExceptionStarts dtz e.exceptions).filter
      (fun p => (datetime_as after (startOf dtz e.raw)).ltb p.1)) hfiltAware with
    ⟨hempty, hminOk⟩ | ⟨m, hmMem, hminOk, hmAware, hmMin⟩
  · refine ⟨none, ?_, ?_⟩
    · intro x hx
      cases hq : qualifiesClaim dtz (datetime_as after (startOf dtz e.raw)) x with
      | false => rfl
      | true =>
        exfalso
        have : (startOf dtz x.raw, x) ∈ (nonCancelledExceptionStarts dtz e.exceptions).filter
            (fun p => (datetime_as after (startOf dtz e.raw)).ltb p.1) :=
          (hfiltMem (startOf dtz x.raw, x)).2 ⟨hx, hq, rfl⟩
        rw [hempty] at this
        simp at this
    · have hfind : _find_next_occurrence dtz e gen (datetime_as after (startOf dtz e.raw)) =
          .ok (none, none) := by
        unfold _find_next_occurrence
        rw [hFilterOk]
        simp only [Bind.bind, Except.bind]
        rw [hminOk]
        simp [hd, pure, Except.pure]
      unfold next_occurrence
      rw [hls]
      simp [hfind, retagToSeriesTz, excCandResult, Bind.bind, Except.bind]
  · obtain ⟨hmExc, hmQual, hmStart⟩ := (hfiltMem m).1 hmMem
    refine ⟨some m, ⟨hmExc, hmQual, hmStart, ?_⟩, ?_⟩
    · intro x hx hq
      exact hmMin (startOf dtz x.raw, x) ((hfiltMem (startOf dtz x.raw, x)).2 ⟨hx, hq, rfl⟩)
    · have hfind : _find_next_occurrence dtz e gen (datetime_as after (startOf dtz e.raw)) =
          .ok (some m.1, some (.exc m.2)) := by
        unfold _find_next_occurrence
        rw [hFilterOk]
        simp only [Bind.bind, Except.bind]
        rw [hminOk]
        simp [hd, pure, Except.pure]
      unfold next_occurrence
      rw [hls]
      simp only [Bind.bind, Except.bind, hfind]
      rcases hstval : startOf dtz e.raw with d | ⟨d, s⟩ | ⟨sa, stz⟩ <;>
        rw [hstval] at hst <;> simp [PyTime.isAware] at hst
      rcases hmval : m.1 with d0 | ⟨d0, s0⟩ | ⟨a0, tz0⟩ <;>
        rw [hmval] at hmAware <;> simp [PyTime.isAware] at hmAware
      simp [hmval, retagToSeriesTz, excCandResult, is_allday, PyTime.isDateVal,
        PyTime.astimezone?, claimConvert, Bind.bind, Except.bind]

/-- Witness for C3 at a concrete input: the declined timed daily series
returns only the un-declined exception instance's start, skipping all
regular instants. -/
theorem c3_declined_master_timed_witness :
    (evTimedDeclined.raw.recurrence.isSome ∧
      (is_declined_by_me evTimedDeclined.raw || is_declined_by_others evTimedDeclined.raw)
        = true) ∧
    next_occurrence "Europe/Sofia" evTimedDeclined genTimed (.aware 90000 "Europe/Sofia")
      = .ok (some (.aware 313200 "Europe/Sofia"), some (.exc excTimed)) := by
  refine ⟨⟨rfl, rfl⟩, ?_⟩
  obtain ⟨excCand, hq, heq⟩ :=
    c3_declined_master_timed "Europe/Sofia" evTimedDeclined genTimed
      (.aware 90000 "Europe/Sofia") rfl rfl (by decide) (by decide) rfl
  cases excCand with
  | none =>
    have hfalse := hq excTimed (by decide)
    exact absurd hfalse (by decide)
  | some sx =>
    obtain ⟨hmem, hqual, hstart, hmin⟩ := hq
    have h2 : sx.2 = excTimed := by
      have : evTimedDeclined.exceptions = [excTimed] := rfl
      rw [this] at hmem
      simpa using hmem
    have hsx : sx = (PyTime.aware 313200 "Europe/Sofia", excTimed) := by
      obtain ⟨s1, s2⟩ := sx
      simp only at h2 hstart
      rw [h2] at hstart ⊢
      rw [hstart]
      rfl
    rw [hsx] at heq
    exact heq.trans rfl

/-- Counterexample for C3 as stated: for an all-day daily series declined by
self with a qualifying rescheduled exception instance, the source does not
return the exception's start — converting the returned `date` with
`.date()` raises `AttributeError`. -/
theorem c3_allday_exception_attributeerror :
    next_occurrence "Europe/Sofia" evAlldayDeclined genAllday (.date 0)
      = .error .attributeError := rfl

/-- C8: for every event and key, `save_private_info(key, None)` fails fast
with an `AssertionError` (Python's `assert value is not None`) before any
mutation, so the event's extended-properties state is left unchanged; it
never silently no-ops. -/
theorem c8_save_none_fails (e : Event) (key : String) (s : Store) :
    save_private_info e key none s = .error .assertionError := rfl

/-- C10: for every event, key and non-`None` value `v`, after
`save_private_info(key, v)` a `get_private_info(key)` returns the string
`str(v)` — stored private values are coerced to strings, so a non-string
value (such as an integer task id) round-trips to its string form. -/
theorem c10_save_str_round_trip (e : Event) (key : String) (v : PyVal) (s : Store)
    (e2 : Event) (s2 : Store) (h : save_private_info e key (some v) s = .ok (e2, s2)) :
    get_private_info e2 s2 key = some (pyStr v) := by
  simp only [save_private_info, Store.alloc, Except.ok.injEq, Prod.mk.injEq] at h
  obtain ⟨he, hs⟩ := h
  subst he
  subst hs
  unfold get_private_info Store.read
  simp [dictGet_dictSet]

/-- Witness for C10 at a concrete input: saving the integer `42` under key
`todoist` stores and returns the string `42`. -/
theorem c10_save_str_round_trip_witness :
    save_private_info evPlain "todoist" (some (.int 42)) ⟨[]⟩ =
      .ok ({ evPlain with extProps := some 0 }, ⟨[⟨some [("todoist", "42")]⟩]⟩) ∧
    get_private_info { evPlain with extProps := some 0 }
      ⟨[⟨some [("todoist", "42")]⟩]⟩ "todoist" = some "42" :=
  ⟨rfl, c10_save_str_round_trip evPlain "todoist" (.int 42) ⟨[]⟩ _ _ rfl⟩

/-- C9: for every well-formed event `E` and its copy `C = E.deep_copy()`,
a later `save_private_info` on `E` changes no value `C.get_private_info`
returns, and a `save_private_info` on `C` changes no value
`E.get_private_info` returns: the private-property mappings never alias. -/
theorem c9_copy_isolation (e : Event) (s : Store) (hwf : WFEvent e s)
    (c : Event) (s1 : Store) (hdc : deep_copy e s = (c, s1)) :
    (∀ key v e2 s2, save_private_info e key v s1 = .ok (e2, s2) →
        ∀ k, get_private_info c s2 k = get_private_info c s1 k) ∧
    (∀ key v c2 s2, save_private_info c key v s1 = .ok (c2, s2) →
        ∀ k, get_private_info e s2 k = get_private_info e s1 k) := by
  have hwfc : WFEvent c s1 := by
    have h := deepCopyWf e s
    rw [hdc] at h
    exact h
  have hwfe1 : WFEvent e s1 := by
    have h := deepCopyExtends e s
    rw [hdc] at h
    exact wfOfExtends hwf h
  constructor
  · intro key v e2 s2 hsv k
    exact getPrivateInfoOfExtends hwfc (saveOkExtends hsv) k
  · intro key v c2 s2 hsv k
    exact getPrivateInfoOfExtends hwfe1 (saveOkExtends hsv) k

/-- Witness for C9 at a concrete input: a copied event's private lookup is
unaffected by a save on the original. -/
theorem c9_copy_isolation_witness :
    WFEvent evPlain ⟨[]⟩ ∧
    get_private_info evPlain ⟨[⟨some [("k", "1")]⟩]⟩ "k"
      = get_private_info evPlain ⟨[]⟩ "k" := by
  constructor
  · intro a ha
    exact absurd ha (by simp [evPlain])
  · exact (c9_copy_isolation evPlain ⟨[]⟩ (fun a ha => absurd ha (by simp [evPlain]))
      evPlain ⟨[]⟩ rfl).1
      "k" (some (.str "1")) { evPlain with extProps := some 0 }
      ⟨[⟨some [("k", "1")]⟩]⟩ rfl "k"

/-- C6: for every timed raw start/end record the timezone is resolved from
the record's explicit `timeZone` field; the calendar's default timezone is
the fallback when the field is absent (the remap applying to the resolved
name either way); a resolved name of exactly `UTC` is remapped to
`Europe/London`, which is not true UTC (its summer offset is nonzero). -/
theorem c6_timezone_resolution :
    (∀ (dtz : String) (rt : RawTime) (n : String),
        rt.timeZoneField = some n → n ≠ "UTC" → _get_timezone dtz rt = gettz n) ∧
    (∀ (dtz : String) (rt : RawTime),
        rt.timeZoneField = some "UTC" → _get_timezone dtz rt = gettz "Europe/London") ∧
    (∀ (dtz : String) (rt : RawTime), rt.timeZoneField = none →
        _get_timezone dtz rt = gettz (if dtz = "UTC" then "Europe/London" else dtz)) ∧
    tzOffsetSecs (gettz "Europe/London") (daysFromCivil 2024 7 1 * 86400) ≠
      tzOffsetSecs (gettz "UTC") (daysFromCivil 2024 7 1 * 86400) := by
  refine ⟨?_, ?_, ?_, ?_⟩
  · intro dtz rt n hn hne
    simp [_get_timezone, hn, hne]
  · intro dtz rt hn
    simp [_get_timezone, hn]
  · intro dtz rt hn
    simp [_get_timezone, hn]
  · decide

/-- Witness for C6 at concrete inputs: an explicit `Europe/Sofia` resolves
to itself; an explicit `UTC` is remapped; an absent field falls back to the
default. -/
theorem c6_timezone_resolution_witness :
    _get_timezone "America/New_York" ⟨none, some 0, some "Europe/Sofia"⟩ = gettz "Europe/Sofia" ∧
    _get_timezone "America/New_York" ⟨none, some 0, some "UTC"⟩ = gettz "Europe/London" ∧
    _get_timezone "America/New_York" ⟨none, some 0, none⟩ = gettz "America/New_York" :=
  ⟨c6_timezone_resolution.1 "America/New_York" _ "Europe/Sofia" rfl (by decide),
   c6_timezone_resolution.2.1 "America/New_York" _ rfl,
   (c6_timezone_resolution.2.2.1 "America/New_York" ⟨none, some 0, none⟩ rfl).trans (by decide)⟩

/-- C7: for every event, `is_declined_by_others()` is true iff the event has
at least one attendee neither flagged `self` nor flagged `resource` and
every such attendee has response status `declined`; with zero such
attendees (in particular with no `attendees` field at all) it is false, and
the absent field is read through a defaulting accessor rather than raising. -/
theorem c7_declined_by_others (raw : Raw) :
    (is_declined_by_others raw = true ↔
      ((∃ a ∈ attendeesOf raw,
          a.selfFlag.getD false = false ∧ a.resourceFlag.getD false = false) ∧
        ∀ a ∈ attendeesOf raw,
          a.selfFlag.getD false = false → a.resourceFlag.getD false = false →
            a.responseStatus = "declined")) ∧
    (raw.attendees = none → is_declined_by_others raw = false) := by
  constructor
  · unfold is_declined_by_others
    rw [Bool.and_eq_true, decide_eq_true_iff, gt_iff_lt, List.length_pos, List.all_eq_true]
    constructor
    · rintro ⟨hne, hall⟩
      constructor
      · rcases List.exists_mem_of_ne_nil _ hne with ⟨a, ha⟩
        rw [List.mem_filter] at ha
        exact ⟨a, ha.1, by simpa using ha.2⟩
      · intro a ha hs hr
        have := hall a (List.mem_filter.2 ⟨ha, by simp [hs, hr]⟩)
        simpa using this
    · rintro ⟨⟨a, ha, hs, hr⟩, hall⟩
      constructor
      · have : a ∈ (attendeesOf raw).filter
            (fun a => !(a.selfFlag.getD false) && !(a.resourceFlag.getD false)) :=
          List.mem_filter.2 ⟨ha, by simp [hs, hr]⟩
        exact List.ne_nil_of_mem this
      · intro b hb
        rw [List.mem_filter] at hb
        have hb2 := hb.2
        simp only [Bool.and_eq_true, Bool.not_eq_true'] at hb2
        simpa using hall b hb.1 hb2.1 hb2.2
  · intro hn
    simp [is_declined_by_others, attendeesOf, hn]

/-- Witness for C7 at a concrete input: one non-self, non-resource declined
attendee makes the predicate true. -/
theorem c7_declined_by_others_witness :
    is_declined_by_others
      (sampleRaw (rawDate 0) none none (some [⟨none, none, "declined"⟩])) = true :=
  (c7_declined_by_others _).1.2
    ⟨⟨⟨none, none, "declined"⟩, by decide, by decide⟩,
     by intro a ha _ _; simp [sampleRaw, attendeesOf] at ha; simp [ha]⟩

end TodoistHelper
